import Mathlib

/-!
Verification development for the TimesOfClassOne rules engine.
The definitions below are a shallow embedding of the Python sources:
`event.py` (triggers, contexts, event bus), `maps.py` (grid storage,
placement, range queries), `skillmanager.py` (passive-skill/buff
collection and dispatch) and `engine.py` (combat resolution and the
decision-request protocol).  Machine integers are modelled as `Int`
(Python integers are unbounded), fallible code returns `Except String`,
and coroutine suspension is modelled by tagging handlers as
suspension-capable (`isAsync`) — the suspension-capable dispatch path
runs them in order, the synchronous path rejects them with the same
hard error the Python code raises.
-/

namespace TOC

/-- The closed `Trigger` enumeration from `event.py`. -/
inductive Trigger where
  | CALC_ATTACK
  | CALC_ATTACK_RANGE
  | CALC_ATTACK_TARGET
  | CALC_MOVE_RANGE
  | CALC_DAMAGE
  | CALC_COST
  | CALC_HEAL
  | ON_GAME_START
  | ON_TURN_START
  | ON_INPUT_REQUEST
  | ON_TURN_END
  | ON_SPAWN
  | ON_BUILD
  | BEFORE_MOVE
  | ON_MOVE
  | BEFORE_ATTACK
  | ON_ATTACK
  | ON_DAMAGE_TAKEN
  | ON_KILL
  | ON_DEATH
  | ON_HEAL
  | ON_PROMOTE
deriving DecidableEq, Repr

/-- A static skill/buff table entry: the `(kind, trigger, causal role,
effect identifier, priority)` record stored under a name in an entity's
skill or buff mapping (see the JSON blueprints consumed by `loader.py`
and filtered in `skillmanager.py`). -/
structure SkillInfo where
  sktype : String
  trigger : Trigger
  role : String
  effect : String
  priority : Int
deriving DecidableEq, Repr

/-- The mutable per-entity record shared by `Unit` and `Building`
(`entities.py`): uid, owner, anchor position, footprint (width, height,
orientation flag that swaps them), hit points, and the skill/buff tables. -/
structure GameObject where
  uid : Nat
  owner_id : Nat
  x : Int
  y : Int
  width : Int
  height : Int
  vertical : Bool
  hp : Int
  skills : List (String × SkillInfo)
  buffs : List (String × SkillInfo)

/-- Effective footprint width after applying the orientation flag
(`dx` in `maps.py`). -/
def dimW (e : GameObject) : Int := if e.vertical then e.height else e.width

/-- Effective footprint height after applying the orientation flag
(`dy` in `maps.py`). -/
def dimH (e : GameObject) : Int := if e.vertical then e.width else e.height

/-- `GameMap` from `maps.py`: a `(width+1) × (height+1)` column-major
matrix of optional uids; index 0 is a spare row/column, coordinates are
1-based. -/
structure GameMap where
  width : Int
  height : Int
  matrix : List (List (Option Nat))

/-- `GameMap.__init__`: matrix of `width+1` columns, each of `height+1`
cells, all empty. -/
def mkGameMap (w h : Int) : GameMap :=
  { width := w, height := h,
    matrix := List.replicate (w + 1).toNat (List.replicate (h + 1).toNat none) }

/-- `GameMap.out_of_bounds`. -/
def GameMap.oob (m : GameMap) (x y : Int) : Prop :=
  x ≤ 0 ∨ y ≤ 0 ∨ x > m.width ∨ y > m.height

instance (m : GameMap) (x y : Int) : Decidable (m.oob x y) := by
  unfold GameMap.oob; infer_instance

/-- Raw cell read `matrix[x][y]` (used only at guarded, in-bounds
indices in the Python code; out-of-range reads default to the empty
cell here). -/
def GameMap.cellAt (m : GameMap) (x y : Int) : Option Nat :=
  (m.matrix.getD x.toNat []).getD y.toNat none

/-- Raw cell write `matrix[x][y] = v` (again only used at guarded,
in-bounds indices). -/
def GameMap.setCell (m : GameMap) (x y : Int) (v : Option Nat) : GameMap :=
  { m with matrix := m.matrix.set x.toNat ((m.matrix.getD x.toNat []).set y.toNat v) }

/-- Total version of `GameMap.get_uid_at`: the Python method checks
`out_of_bounds` before indexing, so it is total; this is the value it
returns. -/
def GameMap.getUid (m : GameMap) (x y : Int) : Option Nat :=
  if m.oob x y then none else m.cellAt x y

/-- Python list indexing `l[i]` on an `int` index: negative indices wrap
once by the length; anything still out of range raises `IndexError`. -/
def pyIndex {α : Type} (l : List α) (i : Int) : Except String α :=
  if (if i < 0 then i + (l.length : Int) else i) < 0 then .error "IndexError"
  else
    match l[(if i < 0 then i + (l.length : Int) else i).toNat]? with
    | some a => .ok a
    | none => .error "IndexError"

theorem pyIndex_ok_of_lt {α : Type} (l : List α) (i : Int) (h0 : 0 ≤ i)
    (hl : i.toNat < l.length) : pyIndex l i = .ok l[i.toNat] := by
  unfold pyIndex
  have hif : (if i < 0 then i + (l.length : Int) else i) = i := if_neg (by omega)
  rw [hif, if_neg (by omega), List.getElem?_eq_getElem hl]

/-- `GameMap.get_uid_at(x, y)` with faithful Python indexing semantics:
out-of-bounds coordinates short-circuit to `None`; in-bounds coordinates
index the matrix (which can only raise on a malformed matrix). -/
def GameMap.get_uid_at (m : GameMap) (x y : Int) : Except String (Option Nat) :=
  if m.oob x y then .ok none
  else
    match pyIndex m.matrix x with
    | .error e => .error e
    | .ok row => pyIndex row y

/-- `GameMap.get_uid_at(pos)` called with a single tuple argument:
the method unpacks `x, y = x` and proceeds identically. -/
def GameMap.get_uid_at_pair (m : GameMap) (p : Int × Int) : Except String (Option Nat) :=
  m.get_uid_at p.1 p.2

/-- Well-formedness of a map as established by `GameMap.__init__` and
preserved by every operation: the matrix really is
`(width+1) × (height+1)`. -/
def GameMap.WF (m : GameMap) : Prop :=
  0 ≤ m.width ∧ 0 ≤ m.height ∧
  m.matrix.length = (m.width + 1).toNat ∧
  ∀ row ∈ m.matrix, row.length = (m.height + 1).toNat

instance (m : GameMap) : Decidable m.WF := by
  unfold GameMap.WF; infer_instance

/-- Integer half-open range `[a, b)`, mirroring Python `range(a, b)`. -/
def intRange (a b : Int) : List Int :=
  (List.range (b - a).toNat).map (fun k : Nat => a + (k : Int))

theorem mem_intRange {a b i : Int} : i ∈ intRange a b ↔ a ≤ i ∧ i < b := by
  unfold intRange
  rw [List.mem_map]
  constructor
  · rintro ⟨k, hk, hek⟩
    rw [List.mem_range] at hk
    omega
  · intro h
    refine ⟨(i - a).toNat, ?_, ?_⟩
    · rw [List.mem_range]; omega
    · omega

/-- The footprint cell list of a `dx × dy` rectangle anchored at `(x, y)`,
in the iteration order of the nested `for i … for j` loops of `maps.py`. -/
def cells (x dx y dy : Int) : List (Int × Int) :=
  (intRange x (x + dx)).flatMap (fun i => (intRange y (y + dy)).map (fun j => (i, j)))

theorem mem_cells {x dx y dy : Int} {p : Int × Int} :
    p ∈ cells x dx y dy ↔ x ≤ p.1 ∧ p.1 < x + dx ∧ y ≤ p.2 ∧ p.2 < y + dy := by
  unfold cells
  simp only [List.mem_flatMap, List.mem_map]
  constructor
  · rintro ⟨i, hi, j, hj, rfl⟩
    rw [mem_intRange] at hi
    rw [mem_intRange] at hj
    exact ⟨hi.1, hi.2, hj.1, hj.2⟩
  · rintro ⟨h1, h2, h3, h4⟩
    exact ⟨p.1, mem_intRange.2 ⟨h1, h2⟩, p.2, mem_intRange.2 ⟨h3, h4⟩, rfl⟩

/-- Write `v` into every cell of a rectangle, in loop order. -/
def writeCells (m : GameMap) (cs : List (Int × Int)) (v : Option Nat) : GameMap :=
  cs.foldl (fun acc c => acc.setCell c.1 c.2 v) m

/-- `GameMap.place_entity`: footprint after orientation swap; fail
(returning `false` and mutating nothing) if out of bounds or any cell
occupied; otherwise write the uid into every footprint cell and update
the entity's anchor coordinates. -/
def place_entity (m : GameMap) (e : GameObject) (x y : Int) :
    Bool × GameMap × GameObject :=
  if m.oob x y ∨ m.oob (x + dimW e - 1) (y + dimH e - 1) then (false, m, e)
  else if (cells x (dimW e) y (dimH e)).all (fun c => (m.cellAt c.1 c.2).isNone) then
    (true, writeCells m (cells x (dimW e) y (dimH e)) (some e.uid),
      { e with x := x, y := y })
  else (false, m, e)

/-- `GameMap.move_entity`: bounds-check the destination, clear the old
footprint, attempt `place_entity` at the new anchor, and restore the old
footprint if placement fails. -/
def move_entity (m : GameMap) (e : GameObject) (nx ny : Int) :
    Bool × GameMap × GameObject :=
  if m.oob nx ny ∨ m.oob (nx + dimW e - 1) (ny + dimH e - 1) then (false, m, e)
  else
    match place_entity (writeCells m (cells e.x (dimW e) e.y (dimH e)) none) e nx ny with
    | (true, m2, e2) => (true, m2, e2)
    | (false, _, _) =>
      (false,
        (place_entity (writeCells m (cells e.x (dimW e) e.y (dimH e)) none) e e.x e.y).2.1,
        (place_entity (writeCells m (cells e.x (dimW e) e.y (dimH e)) none) e e.x e.y).2.2)

/-- `GameMap.remove_entity`: clear the footprint and zero the entity's
anchor coordinates. -/
def remove_entity (m : GameMap) (e : GameObject) : GameMap × GameObject :=
  (writeCells m (cells e.x (dimW e) e.y (dimH e)) none, { e with x := 0, y := 0 })

/-! ### Pointwise reasoning about the occupancy matrix -/

theorem cellAt_setCell_self (m : GameMap) (a b : Int) (v : Option Nat)
    (hla : a.toNat < m.matrix.length)
    (hlb : b.toNat < (m.matrix.getD a.toNat []).length) :
    (m.setCell a b v).cellAt a b = v := by
  unfold GameMap.setCell GameMap.cellAt
  have step1 : (m.matrix.set a.toNat ((m.matrix.getD a.toNat []).set b.toNat v)).getD
      a.toNat [] = (m.matrix.getD a.toNat []).set b.toNat v := by
    rw [List.getD_eq_getElem?_getD, List.getElem?_set_self hla, Option.getD_some]
  rw [step1, List.getD_eq_getElem?_getD, List.getElem?_set_self hlb, Option.getD_some]

theorem cellAt_setCell_ne (m : GameMap) (a b i j : Int) (v : Option Nat)
    (ha : 1 ≤ a) (hb : 1 ≤ b) (hne : a ≠ i ∨ b ≠ j) :
    (m.setCell a b v).cellAt i j = m.cellAt i j := by
  unfold GameMap.setCell GameMap.cellAt
  by_cases hai : a.toNat = i.toNat
  · have hia : a = i := by omega
    have hbj : b ≠ j := by
      rcases hne with h | h
      · exact absurd hia h
      · exact h
    by_cases hlen : a.toNat < m.matrix.length
    · simp only [List.getD_eq_getElem?_getD, hai.symm, List.getElem?_set_self hlen,
        Option.getD_some]
      have hb2 : b.toNat ≠ j.toNat := by omega
      rw [List.getElem?_set_ne hb2]
    · rw [List.set_eq_of_length_le (by omega)]
  · simp only [List.getD_eq_getElem?_getD]
    rw [List.getElem?_set_ne hai]

theorem width_setCell (m : GameMap) (a b : Int) (v : Option Nat) :
    (m.setCell a b v).width = m.width := rfl

theorem height_setCell (m : GameMap) (a b : Int) (v : Option Nat) :
    (m.setCell a b v).height = m.height := rfl

theorem WF_setCell (m : GameMap) (a b : Int) (v : Option Nat) (hwf : m.WF) :
    (m.setCell a b v).WF := by
  obtain ⟨h1, h2, h3, h4⟩ := hwf
  by_cases hlen : a.toNat < m.matrix.length
  · refine ⟨h1, h2, ?_, ?_⟩
    · simpa [GameMap.setCell] using h3
    · intro row hrow
      rcases List.mem_or_eq_of_mem_set hrow with h | h
      · exact h4 row h
      · subst h
        rw [List.length_set]
        have hmem : m.matrix.getD a.toNat [] ∈ m.matrix := by
          rw [List.getD_eq_getElem?_getD, List.getElem?_eq_getElem hlen, Option.getD_some]
          exact List.getElem_mem hlen
        exact h4 _ hmem
  · have hnop : (m.setCell a b v).matrix = m.matrix := by
      show m.matrix.set a.toNat _ = m.matrix
      exact List.set_eq_of_length_le (by omega)
    refine ⟨h1, h2, ?_, ?_⟩
    · rw [hnop]; exact h3
    · rw [hnop]; exact h4

theorem width_writeCells (cs : List (Int × Int)) (v : Option Nat) :
    ∀ m : GameMap, (writeCells m cs v).width = m.width := by
  induction cs with
  | nil => intro m; rfl
  | cons c cs ih =>
    intro m
    show (writeCells (m.setCell c.1 c.2 v) cs v).width = m.width
    rw [ih]; rfl

theorem height_writeCells (cs : List (Int × Int)) (v : Option Nat) :
    ∀ m : GameMap, (writeCells m cs v).height = m.height := by
  induction cs with
  | nil => intro m; rfl
  | cons c cs ih =>
    intro m
    show (writeCells (m.setCell c.1 c.2 v) cs v).height = m.height
    rw [ih]; rfl

theorem WF_writeCells (cs : List (Int × Int)) (v : Option Nat) :
    ∀ m : GameMap, m.WF → (writeCells m cs v).WF := by
  induction cs with
  | nil => intro m h; exact h
  | cons c cs ih =>
    intro m h
    exact ih _ (WF_setCell m c.1 c.2 v h)

/-- A cell inside the playing field of map `m`. -/
def inB (m : GameMap) (x y : Int) : Prop :=
  1 ≤ x ∧ x ≤ m.width ∧ 1 ≤ y ∧ y ≤ m.height

instance (m : GameMap) (x y : Int) : Decidable (inB m x y) := by
  unfold inB; infer_instance

theorem matrix_len_of_WF {m : GameMap} (hwf : m.WF) {x y : Int} (hp : inB m x y) :
    x.toNat < m.matrix.length ∧ y.toNat < (m.matrix.getD x.toNat []).length := by
  obtain ⟨hw0, hh0, hlen, hrows⟩ := hwf
  obtain ⟨h1, h2, h3, h4⟩ := hp
  have hx : x.toNat < m.matrix.length := by omega
  refine ⟨hx, ?_⟩
  have hmem : m.matrix.getD x.toNat [] ∈ m.matrix := by
    rw [List.getD_eq_getElem?_getD, List.getElem?_eq_getElem hx, Option.getD_some]
    exact List.getElem_mem hx
  have := hrows _ hmem
  omega

theorem cellAt_writeCells (v : Option Nat) :
    ∀ (cs : List (Int × Int)) (m : GameMap), m.WF → (∀ c ∈ cs, inB m c.1 c.2) →
      ∀ i j : Int, (writeCells m cs v).cellAt i j =
        if (i, j) ∈ cs then v else m.cellAt i j := by
  intro cs
  induction cs with
  | nil => intro m _ _ i j; simp [writeCells]
  | cons c cs ih =>
    intro m hwf hcs i j
    have hc : inB m c.1 c.2 := hcs c (List.mem_cons_self c cs)
    have hm1 : (m.setCell c.1 c.2 v).WF := WF_setCell _ _ _ _ hwf
    have hcs1 : ∀ d ∈ cs, inB (m.setCell c.1 c.2 v) d.1 d.2 := by
      intro d hd
      exact hcs d (List.mem_cons_of_mem c hd)
    have step : writeCells m (c :: cs) v = writeCells (m.setCell c.1 c.2 v) cs v := rfl
    rw [step, ih _ hm1 hcs1 i j]
    by_cases hmem : (i, j) ∈ cs
    · simp [hmem]
    · by_cases heq : (i, j) = c
      · have hlen := matrix_len_of_WF hwf hc
        have : (m.setCell c.1 c.2 v).cellAt i j = v := by
          rw [← heq] at hlen ⊢
          exact cellAt_setCell_self m i j v hlen.1 hlen.2
        simp [hmem, heq, this]
      · have hne : c.1 ≠ i ∨ c.2 ≠ j := by
          by_contra hcon
          push_neg at hcon
          exact heq (by
            obtain ⟨e1, e2⟩ := hcon
            cases c
            simp only at e1 e2
            simp [e1, e2])
        have : (m.setCell c.1 c.2 v).cellAt i j = m.cellAt i j :=
          cellAt_setCell_ne m c.1 c.2 i j v hc.1 hc.2.2.1 hne
        simp [hmem, heq, this]

theorem cellAt_eq_getElem {m : GameMap} {n k : Nat}
    (h1 : n < m.matrix.length) (h2 : k < (m.matrix[n]).length) :
    m.cellAt (n : Int) (k : Int) = (m.matrix[n])[k] := by
  unfold GameMap.cellAt
  have e1 : ((n : Int)).toNat = n := rfl
  have e2 : ((k : Int)).toNat = k := rfl
  have step1 : m.matrix.getD n [] = m.matrix[n] := by
    rw [List.getD_eq_getElem?_getD, List.getElem?_eq_getElem h1, Option.getD_some]
  rw [e1, e2, step1, List.getD_eq_getElem?_getD, List.getElem?_eq_getElem h2,
    Option.getD_some]

theorem gamemap_ext {m m2 : GameMap} (hwf : m.WF) (hwf2 : m2.WF)
    (hw : m.width = m2.width) (hh : m.height = m2.height)
    (hc : ∀ i j : Int, m.cellAt i j = m2.cellAt i j) : m = m2 := by
  obtain ⟨hw0, hh0, hlen, hrows⟩ := hwf
  obtain ⟨hw0b, hh0b, hlenb, hrowsb⟩ := hwf2
  have hmat : m.matrix = m2.matrix := by
    apply List.ext_getElem
    · rw [hlen, hlenb, hw]
    · intro n h1 h2
      apply List.ext_getElem
      · have r1 := hrows _ (List.getElem_mem h1)
        have r2 := hrowsb _ (List.getElem_mem h2)
        rw [r1, r2, hh]
      · intro k k1 k2
        have hcell := hc (n : Int) (k : Int)
        rw [cellAt_eq_getElem h1 k1, cellAt_eq_getElem h2 k2] at hcell
        exact hcell
  obtain ⟨w1, h1, mat1⟩ := m
  obtain ⟨w2, h2, mat2⟩ := m2
  simp only at hw hh hmat
  rw [hw, hh, hmat]

/-! ### Placement and movement -/

theorem place_entity_fails_occupied (m : GameMap) (e : GameObject) (x y : Int)
    (hnoob : ¬(m.oob x y ∨ m.oob (x + dimW e - 1) (y + dimH e - 1)))
    (c : Int × Int) (hc : c ∈ cells x (dimW e) y (dimH e))
    (hocc : m.cellAt c.1 c.2 ≠ none) :
    place_entity m e x y = (false, m, e) := by
  unfold place_entity
  rw [if_neg hnoob]
  have hfail : ¬((cells x (dimW e) y (dimH e)).all
      (fun c => (m.cellAt c.1 c.2).isNone) = true) := by
    rw [List.all_eq_true]
    intro hall
    have := hall c hc
    rw [Option.isNone_iff_eq_none] at this
    exact hocc this
  rw [if_neg hfail]

theorem place_entity_succeeds (m : GameMap) (e : GameObject) (x y : Int)
    (hnoob : ¬(m.oob x y ∨ m.oob (x + dimW e - 1) (y + dimH e - 1)))
    (hempty : ∀ c ∈ cells x (dimW e) y (dimH e), m.cellAt c.1 c.2 = none) :
    place_entity m e x y =
      (true, writeCells m (cells x (dimW e) y (dimH e)) (some e.uid),
        { e with x := x, y := y }) := by
  unfold place_entity
  rw [if_neg hnoob]
  have hall : (cells x (dimW e) y (dimH e)).all
      (fun c => (m.cellAt c.1 c.2).isNone) = true := by
    rw [List.all_eq_true]
    intro c hc
    rw [Option.isNone_iff_eq_none]
    exact hempty c hc
  rw [if_pos hall]

/-- C7: for a consistently placed entity (well-formed matrix, footprint in
bounds and holding exactly the entity's uid), `move_entity` to an invalid
destination — a footprint that leaves the board, or one containing a cell
occupied by another entity — returns `false` and leaves both the entity's
coordinates and the occupancy matrix byte-for-byte unchanged: the old
footprint is restored unmutated and no partial state remains. -/
theorem move_entity_invalid_destination_unchanged
    (m : GameMap) (e : GameObject) (nx ny : Int)
    (hwf : m.WF) (hdx : 1 ≤ dimW e) (hdy : 1 ≤ dimH e)
    (hin : 1 ≤ e.x ∧ e.x + dimW e - 1 ≤ m.width ∧ 1 ≤ e.y ∧ e.y + dimH e - 1 ≤ m.height)
    (hocc : ∀ c ∈ cells e.x (dimW e) e.y (dimH e), m.cellAt c.1 c.2 = some e.uid)
    (hbad : (m.oob nx ny ∨ m.oob (nx + dimW e - 1) (ny + dimH e - 1)) ∨
      ∃ c ∈ cells nx (dimW e) ny (dimH e), ∃ u, m.cellAt c.1 c.2 = some u ∧ u ≠ e.uid) :
    move_entity m e nx ny = (false, m, e) := by
  unfold move_entity
  by_cases hoob : m.oob nx ny ∨ m.oob (nx + dimW e - 1) (ny + dimH e - 1)
  · rw [if_pos hoob]
  · rw [if_neg hoob]
    rcases hbad with hbad | ⟨c0, hc0mem, u, hcu, hune⟩
    · exact absurd hbad hoob
    -- the old footprint cells are all in bounds
    have holdin : ∀ c ∈ cells e.x (dimW e) e.y (dimH e), inB m c.1 c.2 := by
      intro c hc
      rw [mem_cells] at hc
      exact ⟨by omega, by omega, by omega, by omega⟩
    have hm1wf : (writeCells m (cells e.x (dimW e) e.y (dimH e)) none).WF :=
      WF_writeCells _ _ _ hwf
    have hm1cell := cellAt_writeCells none (cells e.x (dimW e) e.y (dimH e)) m hwf holdin
    -- the occupied destination cell is outside the old footprint
    have hc0old : (c0.1, c0.2) ∉ cells e.x (dimW e) e.y (dimH e) := by
      intro hmem
      have := hocc _ hmem
      simp only at this
      rw [hcu] at this
      exact hune (Option.some.inj this)
    -- placement at the destination fails on the cleared map
    have hoob1 : ¬((writeCells m (cells e.x (dimW e) e.y (dimH e)) none).oob nx ny ∨
        (writeCells m (cells e.x (dimW e) e.y (dimH e)) none).oob
          (nx + dimW e - 1) (ny + dimH e - 1)) := by
      unfold GameMap.oob at hoob ⊢
      rw [width_writeCells, height_writeCells]
      exact hoob
    have hplacefail := place_entity_fails_occupied _ e nx ny hoob1 c0 hc0mem (by
      rw [hm1cell c0.1 c0.2]
      rw [if_neg hc0old, hcu]
      exact Option.some_ne_none u)
    rw [hplacefail]
    -- restoring the old footprint succeeds and reproduces the original map
    have hoob2 : ¬((writeCells m (cells e.x (dimW e) e.y (dimH e)) none).oob e.x e.y ∨
        (writeCells m (cells e.x (dimW e) e.y (dimH e)) none).oob
          (e.x + dimW e - 1) (e.y + dimH e - 1)) := by
      unfold GameMap.oob
      rw [width_writeCells, height_writeCells]
      rintro (h | h) <;> omega
    have hempty1 : ∀ c ∈ cells e.x (dimW e) e.y (dimH e),
        (writeCells m (cells e.x (dimW e) e.y (dimH e)) none).cellAt c.1 c.2 = none := by
      intro c hc
      rw [hm1cell c.1 c.2, if_pos (by
        cases c
        exact hc)]
    have hrestore := place_entity_succeeds _ e e.x e.y hoob2 hempty1
    rw [hrestore]
    -- the restored map is the original one
    have hmapeq : writeCells (writeCells m (cells e.x (dimW e) e.y (dimH e)) none)
        (cells e.x (dimW e) e.y (dimH e)) (some e.uid) = m := by
      have holdin1 : ∀ c ∈ cells e.x (dimW e) e.y (dimH e),
          inB (writeCells m (cells e.x (dimW e) e.y (dimH e)) none) c.1 c.2 := by
        intro c hc
        have := holdin c hc
        unfold inB at this ⊢
        rw [width_writeCells, height_writeCells]
        exact this
      apply gamemap_ext (WF_writeCells _ _ _ hm1wf) hwf
      · rw [width_writeCells, width_writeCells]
      · rw [height_writeCells, height_writeCells]
      · intro i j
        rw [cellAt_writeCells (some e.uid) _ _ hm1wf holdin1 i j, hm1cell i j]
        by_cases hij : (i, j) ∈ cells e.x (dimW e) e.y (dimH e)
        · rw [if_pos hij, (hocc _ hij).symm]
        · rw [if_neg hij, if_neg hij]
    rw [hmapeq]

/-! ### `get_uid_at` (C10) -/

/-- C10: `GameMap.get_uid_at` is total on a well-formed map and never
raises: it returns `None` exactly when `x ≤ 0`, `y ≤ 0`, `x > width` or
`y > height`, and otherwise the stored optional uid of the cell; calling
it with a single tuple argument behaves identically. -/
theorem get_uid_at_total_never_raises (m : GameMap) (x y : Int) (hwf : m.WF) :
    (∃ v, m.get_uid_at x y = .ok v) ∧
    (m.oob x y → m.get_uid_at x y = .ok none) ∧
    (¬ m.oob x y → m.get_uid_at x y = .ok (m.cellAt x y)) ∧
    m.get_uid_at_pair (x, y) = m.get_uid_at x y := by
  have hmain : (m.oob x y → m.get_uid_at x y = .ok none) ∧
      (¬ m.oob x y → m.get_uid_at x y = .ok (m.cellAt x y)) := by
    constructor
    · intro hoob
      unfold GameMap.get_uid_at
      rw [if_pos hoob]
    · intro hoob
      have hb : inB m x y := by
        unfold GameMap.oob at hoob
        push_neg at hoob
        exact ⟨by omega, by omega, by omega, by omega⟩
      obtain ⟨hb1, hb2, hb3, hb4⟩ := hb
      obtain ⟨hx, hy⟩ := matrix_len_of_WF hwf ⟨hb1, hb2, hb3, hb4⟩
      have h1 : m.matrix.getD x.toNat [] = m.matrix[x.toNat] := by
        rw [List.getD_eq_getElem?_getD, List.getElem?_eq_getElem hx, Option.getD_some]
      have hylen : y.toNat < (m.matrix[x.toNat]).length := by
        rw [← h1]
        exact hy
      unfold GameMap.get_uid_at
      rw [if_neg hoob, pyIndex_ok_of_lt m.matrix x (by omega) hx]
      show pyIndex (m.matrix[x.toNat]) y = Except.ok (m.cellAt x y)
      rw [pyIndex_ok_of_lt _ y (by omega) hylen]
      unfold GameMap.cellAt
      rw [h1, List.getD_eq_getElem?_getD, List.getElem?_eq_getElem hylen, Option.getD_some]
  refine ⟨?_, hmain.1, hmain.2, rfl⟩
  by_cases hoob : m.oob x y
  · exact ⟨none, hmain.1 hoob⟩
  · exact ⟨m.cellAt x y, hmain.2 hoob⟩

/-- Concrete 2×1 map for exercising movement: uid 5 on cell (1,1),
uid 7 on cell (2,1). -/
def mapA : GameMap :=
  { width := 2, height := 1,
    matrix := [[none, none], [none, some 5], [none, some 7]] }

/-- Concrete 1×1 unit with uid 5 placed at (1,1) on `mapA`. -/
def entA : GameObject :=
  { uid := 5, owner_id := 1, x := 1, y := 1, width := 1, height := 1,
    vertical := false, hp := 10, skills := [], buffs := [] }

theorem move_entity_invalid_destination_unchanged_witness :
    move_entity mapA entA 2 1 = (false, mapA, entA) :=
  move_entity_invalid_destination_unchanged mapA entA 2 1 (by decide) (by decide)
    (by decide) (by decide) (by decide)
    (Or.inr ⟨(2, 1), by decide, 7, rfl, by decide⟩)

theorem get_uid_at_total_never_raises_witness :
    ∃ v, (mkGameMap 3 3).get_uid_at 2 2 = .ok v :=
  (get_uid_at_total_never_raises (mkGameMap 3 3) 2 2 (by decide)).1

/-! ### The event bus (`event.py`) -/

/-- The possible values of `Context.source` / `Context.target`: the
Python fields hold a game object, a player state, a position tuple or
`None`; the skill resolver discriminates with `isinstance(…, GameObject)`. -/
inductive CtxVal where
  | noneV
  | ent (uid : Nat)
  | player (pid : Nat)
  | pos (p : Int × Int)
deriving DecidableEq, Repr

/-- `Context` from `event.py`: acting source, target, the mutable numeric
value, the `position` metadata entry used by combat, and the stop flag. -/
structure Context where
  source : CtxVal
  target : CtxVal
  value : Int
  position : Option (Int × Int)
  is_stopped : Bool
deriving DecidableEq, Repr

/-- The engine-owned mutable state handlers can reach through
`ctx.engine`: the object store (every constructed entity, addressed by
uid), the entity table `engine.entities` (its key list), and the grid. -/
structure EngineState where
  heap : Nat → GameObject
  alive : List Nat
  gmap : GameMap

/-- A handler mutates engine state and the dispatch context. -/
def Handler := EngineState → Context → EngineState × Context

/-- One subscribed listener: the `(handler, priority)` pair stored by
`EventBus.subscribe`, together with whether the handler is a coroutine
function (`inspect.iscoroutinefunction`) and an identity tag `hid`
standing for the function object's identity. -/
structure HEntry where
  hid : Nat
  isAsync : Bool
  priority : Int
  fn : Handler

/-- `EventBus._listeners`: a handler list per trigger. -/
structure EventBus where
  listeners : Trigger → List HEntry

/-- `EventBus.__init__`: `{t: [] for t in Trigger}`. -/
def emptyBus : EventBus := ⟨fun _ => []⟩

/-- The comparison realised by `sort(key=lambda x: x[1], reverse=True)`:
`a` may stay before `b` iff `b`'s priority is not larger. -/
def prioGE (a b : HEntry) : Prop := b.priority ≤ a.priority

instance : DecidableRel prioGE := fun a b => by
  unfold prioGE; infer_instance

instance : IsTotal HEntry prioGE :=
  ⟨fun a b => by unfold prioGE; omega⟩

instance : IsTrans HEntry prioGE :=
  ⟨fun a b c h1 h2 => by unfold prioGE at h1 h2 ⊢; omega⟩

/-- `EventBus.subscribe`: append the `(handler, priority)` pair, then
stable-sort the trigger's list by priority descending (Python's
`list.sort` is stable; `List.insertionSort` realises the same stable
descending order). -/
def subscribe (bus : EventBus) (t : Trigger) (h : HEntry) : EventBus :=
  ⟨fun t2 => if t2 = t then (bus.listeners t ++ [h]).insertionSort prioGE
    else bus.listeners t2⟩

/-- The loop body of `EventBus.emit`: invoke handlers in list order,
raising `RuntimeError` on a coroutine handler, short-circuiting as soon
as `context.is_stopped`; additionally returns the `hid`s of the handlers
invoked, in invocation order. -/
def emitGo : List HEntry → EngineState → Context →
    Except String (EngineState × Context × List Nat)
  | [], st, ctx => .ok (st, ctx, [])
  | h :: rest, st, ctx =>
    if h.isAsync then .error "Cannot call async handler in sync emit"
    else
      if (h.fn st ctx).2.is_stopped then .ok ((h.fn st ctx).1, (h.fn st ctx).2, [h.hid])
      else
        match emitGo rest (h.fn st ctx).1 (h.fn st ctx).2 with
        | .error e => .error e
        | .ok (st2, c2, tr) => .ok (st2, c2, h.hid :: tr)

/-- `EventBus.emit`. -/
def emit (bus : EventBus) (t : Trigger) (st : EngineState) (ctx : Context) :
    Except String (EngineState × Context × List Nat) :=
  emitGo (bus.listeners t) st ctx

/-- The loop body of `EventBus.async_emit`: identical order and stop
semantics, but coroutine handlers are awaited instead of rejected. -/
def asyncEmitGo : List HEntry → EngineState → Context →
    EngineState × Context × List Nat
  | [], st, ctx => (st, ctx, [])
  | h :: rest, st, ctx =>
    if (h.fn st ctx).2.is_stopped then ((h.fn st ctx).1, (h.fn st ctx).2, [h.hid])
    else
      ((asyncEmitGo rest (h.fn st ctx).1 (h.fn st ctx).2).1,
       (asyncEmitGo rest (h.fn st ctx).1 (h.fn st ctx).2).2.1,
       h.hid :: (asyncEmitGo rest (h.fn st ctx).1 (h.fn st ctx).2).2.2)

/-- `EventBus.async_emit`. -/
def async_emit (bus : EventBus) (t : Trigger) (st : EngineState) (ctx : Context) :
    EngineState × Context × List Nat :=
  asyncEmitGo (bus.listeners t) st ctx

theorem emitGo_ok_trace (hs : List HEntry) :
    ∀ st ctx st2 c2 tr, emitGo hs st ctx = .ok (st2, c2, tr) →
      ∃ n, tr = (hs.take n).map HEntry.hid ∧ ∀ h ∈ hs.take n, h.isAsync = false := by
  induction hs with
  | nil =>
    intro st ctx st2 c2 tr h
    refine ⟨0, ?_, ?_⟩
    · injection h with h2
      injection h2 with _ h3
      injection h3 with _ h4
      simp [← h4]
    · intro h hmem
      simp at hmem
  | cons h rest ih =>
    intro st ctx st2 c2 tr hok
    unfold emitGo at hok
    by_cases hasync : h.isAsync
    · rw [if_pos hasync] at hok
      exact absurd hok (by simp)
    · rw [if_neg hasync] at hok
      by_cases hstop : (h.fn st ctx).2.is_stopped
      · rw [if_pos hstop] at hok
        injection hok with h2
        injection h2 with _ h3
        injection h3 with _ h4
        refine ⟨1, ?_, ?_⟩
        · simp [← h4]
        · intro g hg
          simp at hg
          rw [hg]
          simpa using hasync
      · rw [if_neg hstop] at hok
        rcases hrec : emitGo rest (h.fn st ctx).1 (h.fn st ctx).2 with e | ⟨st3, c3, tr3⟩
        · rw [hrec] at hok
          exact absurd hok (by simp)
        · rw [hrec] at hok
          injection hok with h2
          injection h2 with _ h3
          injection h3 with _ h4
          obtain ⟨n, htr, hsync⟩ := ih _ _ st3 c3 tr3 hrec
          refine ⟨n + 1, ?_, ?_⟩
          · simp [← h4, htr]
          · intro g hg
            rw [List.take_succ_cons] at hg
            rcases List.mem_cons.1 hg with hg | hg
            · rw [hg]; simpa using hasync
            · exact hsync g hg

theorem asyncEmitGo_trace (hs : List HEntry) :
    ∀ st ctx, ∃ n, (asyncEmitGo hs st ctx).2.2 = (hs.take n).map HEntry.hid := by
  induction hs with
  | nil =>
    intro st ctx
    exact ⟨0, rfl⟩
  | cons h rest ih =>
    intro st ctx
    unfold asyncEmitGo
    by_cases hstop : (h.fn st ctx).2.is_stopped
    · rw [if_pos hstop]
      exact ⟨1, rfl⟩
    · rw [if_neg hstop]
      obtain ⟨n, htr⟩ := ih (h.fn st ctx).1 (h.fn st ctx).2
      refine ⟨n + 1, ?_⟩
      simp only [List.take_succ_cons, List.map_cons]
      rw [← htr]

/-! ### Stability of the registration-time sort -/

theorem filter_orderedInsert {α : Type} (r : α → α → Prop) [DecidableRel r]
    (q : α → Bool) (hq : ∀ a b, q a = true → q b = true → r a b) (a : α) :
    ∀ l : List α, (l.orderedInsert r a).filter q =
      if q a then a :: l.filter q else l.filter q := by
  intro l
  induction l with
  | nil =>
    by_cases hqa : q a <;> simp [List.orderedInsert, List.filter_cons, hqa]
  | cons b l ih =>
    by_cases hr : r a b
    · rw [List.orderedInsert, if_pos hr]
      by_cases hqa : q a <;> simp [List.filter_cons, hqa]
    · rw [List.orderedInsert, if_neg hr]
      by_cases hqa : q a
      · have hqb : q b = false := by
          cases hqb2 : q b
          · rfl
          · exact absurd (hq a b hqa hqb2) hr
        simp [List.filter_cons, hqb, ih, hqa]
      · simp [List.filter_cons, ih, hqa]

theorem filter_insertionSort {α : Type} (r : α → α → Prop) [DecidableRel r]
    (q : α → Bool) (hq : ∀ a b, q a = true → q b = true → r a b) :
    ∀ l : List α, (l.insertionSort r).filter q = l.filter q := by
  intro l
  induction l with
  | nil => rfl
  | cons b l ih =>
    rw [List.insertionSort, filter_orderedInsert r q hq]
    by_cases hqb : q b <;> simp [List.filter_cons, hqb, ih]

/-- Iterated registration: fold `subscribe` over a registration
sequence, starting from the freshly initialised bus. -/
def busOf (regs : List (Trigger × HEntry)) : EventBus :=
  regs.foldl (fun b r => subscribe b r.1 r.2) emptyBus

theorem busOf_go_sorted :
    ∀ (regs : List (Trigger × HEntry)) (bus : EventBus),
      (∀ t, List.Sorted prioGE (bus.listeners t)) →
      ∀ t, List.Sorted prioGE
        ((regs.foldl (fun b r => subscribe b r.1 r.2) bus).listeners t) := by
  intro regs
  induction regs with
  | nil => intro bus h t; exact h t
  | cons r regs ih =>
    intro bus h t
    refine ih (subscribe bus r.1 r.2) ?_ t
    intro t2
    unfold subscribe
    dsimp only
    by_cases ht : t2 = r.1
    · rw [if_pos ht]
      exact List.sorted_insertionSort prioGE _
    · rw [if_neg ht]
      exact h t2

theorem busOf_go_filter (p : Int) :
    ∀ (regs : List (Trigger × HEntry)) (bus : EventBus) (t : Trigger),
      ((regs.foldl (fun b r => subscribe b r.1 r.2) bus).listeners t).filter
          (fun h => h.priority == p) =
        (bus.listeners t).filter (fun h => h.priority == p) ++
          ((regs.filter (fun r => r.1 == t)).map Prod.snd).filter
            (fun h => h.priority == p) := by
  have hq : ∀ a b : HEntry, (a.priority == p) = true → (b.priority == p) = true →
      prioGE a b := by
    intro a b ha hb
    unfold prioGE
    rw [beq_iff_eq] at ha hb
    omega
  intro regs
  induction regs with
  | nil => intro bus t; simp
  | cons r regs ih =>
    intro bus t
    have step : (r :: regs).foldl (fun b r => subscribe b r.1 r.2) bus =
        regs.foldl (fun b r => subscribe b r.1 r.2) (subscribe bus r.1 r.2) := rfl
    rw [step, ih (subscribe bus r.1 r.2) t]
    unfold subscribe
    dsimp only
    by_cases ht : t = r.1
    · subst ht
      rw [if_pos rfl, filter_insertionSort prioGE _ hq, List.filter_append]
      have hfilt : (r :: regs).filter (fun r2 => r2.1 == r.1) =
          r :: regs.filter (fun r2 => r2.1 == r.1) := by
        rw [List.filter_cons, if_pos (beq_self_eq_true r.1)]
      rw [hfilt, List.map_cons, List.filter_cons]
      by_cases hp : (r.2.priority == p) = true
      · rw [if_pos hp]
        simp [List.filter_cons, hp]
      · rw [if_neg hp]
        simp [List.filter_cons, hp]
    · rw [if_neg ht]
      have hfilt : (r :: regs).filter (fun r2 => r2.1 == t) =
          regs.filter (fun r2 => r2.1 == t) := by
        rw [List.filter_cons, if_neg (by
          intro hcon
          rw [beq_iff_eq] at hcon
          exact ht hcon.symm)]
      rw [hfilt]

/-- C2: after any sequence of `subscribe` calls, each trigger's stored
handler list is sorted by priority descending, equal-priority handlers
appear in registration order (the priority-`p` subsequence equals the
priority-`p` registrations for that trigger, in order), and both
dispatch paths (`emit` and `async_emit`) invoke handlers in exactly the
stored order: the invoked-handler trace is an initial segment of the
stored list. -/
theorem event_bus_order_and_dispatch (regs : List (Trigger × HEntry)) (t : Trigger)
    (st : EngineState) (ctx : Context) :
    List.Sorted prioGE ((busOf regs).listeners t) ∧
    (∀ p : Int, ((busOf regs).listeners t).filter (fun h => h.priority == p) =
      ((regs.filter (fun r => r.1 == t)).map Prod.snd).filter
        (fun h => h.priority == p)) ∧
    (∀ st2 c2 tr, emit (busOf regs) t st ctx = .ok (st2, c2, tr) →
      ∃ n, tr = (((busOf regs).listeners t).take n).map HEntry.hid) ∧
    (∃ n, (async_emit (busOf regs) t st ctx).2.2 =
      (((busOf regs).listeners t).take n).map HEntry.hid) := by
  refine ⟨?_, ?_, ?_, ?_⟩
  · exact busOf_go_sorted regs emptyBus (fun _ => List.sorted_nil) t
  · intro p
    have := busOf_go_filter p regs emptyBus t
    simpa [emptyBus] using this
  · intro st2 c2 tr hok
    obtain ⟨n, htr, _⟩ := emitGo_ok_trace ((busOf regs).listeners t) st ctx st2 c2 tr hok
    exact ⟨n, htr⟩
  · exact asyncEmitGo_trace ((busOf regs).listeners t) st ctx

/-! ### The skill resolver (`skillmanager.py`) -/

/-- A registered effect function (an entry of `loader.funcdict`), with
its coroutine-function flag. -/
structure SkFun where
  isAsync : Bool
  fn : Handler

/-- One collected tuple `(priority, ent.uid, name, func)` as built by
`SkillManager._collect_filter`. -/
structure SEntry where
  priority : Int
  uid : Nat
  name : String
  func : SkFun

/-- `SkillManager._collect_filter`: keep an entry only if its kind is
`PassiveSkill` or `Buff`, its trigger and causal role match, and its
effect identifier resolves in `loader.funcdict` (a missing effect is a
non-fatal warning and the entry is skipped); append the surviving tuple. -/
def collect_filter (funcdict : String → Option SkFun) (L : List SEntry)
    (trigger : Trigger) (role : String) (ent : GameObject)
    (name : String) (info : SkillInfo) : List SEntry :=
  if info.sktype ≠ "PassiveSkill" ∧ info.sktype ≠ "Buff" then L
  else if info.trigger ≠ trigger then L
  else if info.role ≠ role then L
  else
    match funcdict info.effect with
    | none => L
    | some f => L ++ [⟨info.priority, ent.uid, name, f⟩]

/-- The candidate scan list of `_collect_skills_and_buffs`: every live
entity tagged `GLOBAL`, then `context.source` tagged `SOURCE` if it is a
`GameObject`, then `context.target` tagged `TARGET` if it is one. -/
def skillCandidates (st : EngineState) (ctx : Context) : List (GameObject × String) :=
  (st.alive.map (fun u => (st.heap u, "GLOBAL"))) ++
  (match ctx.source with
   | CtxVal.ent u => [(st.heap u, "SOURCE")]
   | _ => []) ++
  (match ctx.target with
   | CtxVal.ent u => [(st.heap u, "TARGET")]
   | _ => [])

/-- The sort key order of `_collect_skills_and_buffs`:
`L.sort(key=lambda x: (-x[0], x[1], x[2]))` — ascending in
`(-priority, uid, name)`. -/
def keyLE (a b : SEntry) : Prop :=
  -a.priority < -b.priority ∨ (-a.priority = -b.priority ∧
    (a.uid < b.uid ∨ (a.uid = b.uid ∧ a.name ≤ b.name)))

instance : DecidableRel keyLE := fun a b => by
  unfold keyLE; infer_instance

instance : IsTotal SEntry keyLE := by
  constructor
  intro a b
  unfold keyLE
  rcases lt_trichotomy (-a.priority) (-b.priority) with h | h | h
  · exact Or.inl (Or.inl h)
  · rcases lt_trichotomy a.uid b.uid with h2 | h2 | h2
    · exact Or.inl (Or.inr ⟨h, Or.inl h2⟩)
    · rcases le_total a.name b.name with h3 | h3
      · exact Or.inl (Or.inr ⟨h, Or.inr ⟨h2, h3⟩⟩)
      · exact Or.inr (Or.inr ⟨h.symm, Or.inr ⟨h2.symm, h3⟩⟩)
    · exact Or.inr (Or.inr ⟨h.symm, Or.inl h2⟩)
  · exact Or.inr (Or.inl h)

instance : IsTrans SEntry keyLE := by
  constructor
  intro a b c h1 h2
  unfold keyLE at h1 h2 ⊢
  rcases h1 with h1 | ⟨e1, h1⟩
  · rcases h2 with h2 | ⟨e2, _⟩
    · exact Or.inl (h1.trans h2)
    · exact Or.inl (by omega)
  · rcases h2 with h2 | ⟨e2, h2⟩
    · exact Or.inl (by omega)
    · refine Or.inr ⟨by omega, ?_⟩
      rcases h1 with h1 | ⟨eu1, n1⟩
      · rcases h2 with h2 | ⟨eu2, _⟩
        · exact Or.inl (h1.trans h2)
        · exact Or.inl (by omega)
      · rcases h2 with h2 | ⟨eu2, n2⟩
        · exact Or.inl (by omega)
        · exact Or.inr ⟨by omega, n1.trans n2⟩

/-- `SkillManager._collect_skills_and_buffs`: scan each candidate's
skill table then buff table through `_collect_filter`, then stable-sort
by `(-priority, uid, name)` ascending. -/
def collect_skills_and_buffs (funcdict : String → Option SkFun) (st : EngineState)
    (trigger : Trigger) (ctx : Context) : List SEntry :=
  ((skillCandidates st ctx).foldl (fun L c =>
    (c.1.skills ++ c.1.buffs).foldl
      (fun L2 p => collect_filter funcdict L2 trigger c.2 c.1 p.1 p.2) L)
    []).insertionSort keyLE

/-- The loop of `SkillManager.skill_trigger`: invoke collected entries
in order, raising on a coroutine effect function, honouring the stop
flag; also returns the `(uid, name)` keys of the entries invoked, in
invocation order. -/
def skillTriggerGo : List SEntry → EngineState → Context →
    Except String (EngineState × Context × List (Nat × String))
  | [], st, ctx => .ok (st, ctx, [])
  | s :: rest, st, ctx =>
    if s.func.isAsync then .error "Cannot call async skill in sync trigger"
    else
      if (s.func.fn st ctx).2.is_stopped then
        .ok ((s.func.fn st ctx).1, (s.func.fn st ctx).2, [(s.uid, s.name)])
      else
        match skillTriggerGo rest (s.func.fn st ctx).1 (s.func.fn st ctx).2 with
        | .error e => .error e
        | .ok (st2, c2, tr) => .ok (st2, c2, (s.uid, s.name) :: tr)

/-- `SkillManager.skill_trigger`. -/
def skill_trigger (funcdict : String → Option SkFun) (st : EngineState)
    (trigger : Trigger) (ctx : Context) :
    Except String (EngineState × Context × List (Nat × String)) :=
  skillTriggerGo (collect_skills_and_buffs funcdict st trigger ctx) st ctx

/-- The loop of `SkillManager.async_skill_trigger`: same order and stop
semantics, coroutine effects awaited instead of rejected. -/
def asyncSkillTriggerGo : List SEntry → EngineState → Context →
    EngineState × Context × List (Nat × String)
  | [], st, ctx => (st, ctx, [])
  | s :: rest, st, ctx =>
    if (s.func.fn st ctx).2.is_stopped then
      ((s.func.fn st ctx).1, (s.func.fn st ctx).2, [(s.uid, s.name)])
    else
      ((asyncSkillTriggerGo rest (s.func.fn st ctx).1 (s.func.fn st ctx).2).1,
       (asyncSkillTriggerGo rest (s.func.fn st ctx).1 (s.func.fn st ctx).2).2.1,
       (s.uid, s.name) ::
         (asyncSkillTriggerGo rest (s.func.fn st ctx).1 (s.func.fn st ctx).2).2.2)

/-- `SkillManager.async_skill_trigger`. -/
def async_skill_trigger (funcdict : String → Option SkFun) (st : EngineState)
    (trigger : Trigger) (ctx : Context) :
    EngineState × Context × List (Nat × String) :=
  asyncSkillTriggerGo (collect_skills_and_buffs funcdict st trigger ctx) st ctx

theorem skillTriggerGo_ok_trace (L : List SEntry) :
    ∀ st ctx st2 c2 tr, skillTriggerGo L st ctx = .ok (st2, c2, tr) →
      ∃ n, tr = (L.take n).map (fun s => (s.uid, s.name)) ∧
        ∀ s ∈ L.take n, s.func.isAsync = false := by
  induction L with
  | nil =>
    intro st ctx st2 c2 tr h
    refine ⟨0, ?_, ?_⟩
    · injection h with h2
      injection h2 with _ h3
      injection h3 with _ h4
      simp [← h4]
    · intro s hmem
      simp at hmem
  | cons s rest ih =>
    intro st ctx st2 c2 tr hok
    unfold skillTriggerGo at hok
    by_cases hasync : s.func.isAsync
    · rw [if_pos hasync] at hok
      exact absurd hok (by simp)
    · rw [if_neg hasync] at hok
      by_cases hstop : (s.func.fn st ctx).2.is_stopped
      · rw [if_pos hstop] at hok
        injection hok with h2
        injection h2 with _ h3
        injection h3 with _ h4
        refine ⟨1, ?_, ?_⟩
        · simp [← h4]
        · intro g hg
          simp at hg
          rw [hg]
          simpa using hasync
      · rw [if_neg hstop] at hok
        rcases hrec : skillTriggerGo rest (s.func.fn st ctx).1 (s.func.fn st ctx).2 with
          e | ⟨st3, c3, tr3⟩
        · rw [hrec] at hok
          exact absurd hok (by simp)
        · rw [hrec] at hok
          injection hok with h2
          injection h2 with _ h3
          injection h3 with _ h4
          obtain ⟨n, htr, hsync⟩ := ih _ _ st3 c3 tr3 hrec
          refine ⟨n + 1, ?_, ?_⟩
          · simp [← h4, htr]
          · intro g hg
            rw [List.take_succ_cons] at hg
            rcases List.mem_cons.1 hg with hg | hg
            · rw [hg]; simpa using hasync
            · exact hsync g hg

theorem asyncSkillTriggerGo_trace (L : List SEntry) :
    ∀ st ctx, ∃ n, (asyncSkillTriggerGo L st ctx).2.2 =
      (L.take n).map (fun s => (s.uid, s.name)) := by
  induction L with
  | nil =>
    intro st ctx
    exact ⟨0, rfl⟩
  | cons s rest ih =>
    intro st ctx
    unfold asyncSkillTriggerGo
    by_cases hstop : (s.func.fn st ctx).2.is_stopped
    · rw [if_pos hstop]
      exact ⟨1, rfl⟩
    · rw [if_neg hstop]
      obtain ⟨n, htr⟩ := ih (s.func.fn st ctx).1 (s.func.fn st ctx).2
      refine ⟨n + 1, ?_⟩
      simp only [List.take_succ_cons, List.map_cons]
      rw [← htr]

theorem mem_collect_pairs (funcdict : String → Option SkFun) (trigger : Trigger)
    (role : String) (ent : GameObject) :
    ∀ (pairs : List (String × SkillInfo)) (L0 : List SEntry) (s : SEntry),
      s ∈ pairs.foldl (fun L2 p => collect_filter funcdict L2 trigger role ent p.1 p.2) L0 →
      s ∈ L0 ∨ ∃ p ∈ pairs,
        (p.2.sktype = "PassiveSkill" ∨ p.2.sktype = "Buff") ∧
        p.2.trigger = trigger ∧ p.2.role = role ∧
        funcdict p.2.effect = some s.func ∧
        s.priority = p.2.priority ∧ s.uid = ent.uid ∧ s.name = p.1 := by
  intro pairs
  induction pairs with
  | nil => intro L0 s h; exact Or.inl h
  | cons p ps ih =>
    intro L0 s h
    have step : (p :: ps).foldl
        (fun L2 q => collect_filter funcdict L2 trigger role ent q.1 q.2) L0 =
        ps.foldl (fun L2 q => collect_filter funcdict L2 trigger role ent q.1 q.2)
          (collect_filter funcdict L0 trigger role ent p.1 p.2) := rfl
    rw [step] at h
    rcases ih _ s h with hbase | ⟨q, hq, hrest⟩
    · -- membership comes from the head entry's filter step
      unfold collect_filter at hbase
      by_cases c1 : p.2.sktype ≠ "PassiveSkill" ∧ p.2.sktype ≠ "Buff"
      · rw [if_pos c1] at hbase
        exact Or.inl hbase
      · rw [if_neg c1] at hbase
        by_cases c2 : p.2.trigger ≠ trigger
        · rw [if_pos c2] at hbase
          exact Or.inl hbase
        · rw [if_neg c2] at hbase
          by_cases c3 : p.2.role ≠ role
          · rw [if_pos c3] at hbase
            exact Or.inl hbase
          · rw [if_neg c3] at hbase
            rcases hf : funcdict p.2.effect with _ | f
            · rw [hf] at hbase
              exact Or.inl hbase
            · rw [hf] at hbase
              rcases List.mem_append.1 hbase with hl | hr
              · exact Or.inl hl
              · have hs : s = ⟨p.2.priority, ent.uid, p.1, f⟩ := by
                  simpa using hr
                refine Or.inr ⟨p, List.mem_cons_self p ps, ?_, ?_, ?_, ?_, ?_, ?_, ?_⟩
                · rcases Decidable.not_and_iff_or_not.1 c1 with h | h
                  · exact Or.inl (not_ne_iff.1 h)
                  · exact Or.inr (not_ne_iff.1 h)
                · exact not_ne_iff.1 c2
                · exact not_ne_iff.1 c3
                · rw [hs, hf]
                · rw [hs]
                · rw [hs]
                · rw [hs]
    · exact Or.inr ⟨q, List.mem_cons_of_mem p hq, hrest⟩

theorem mem_collect_cands (funcdict : String → Option SkFun) (trigger : Trigger) :
    ∀ (cands : List (GameObject × String)) (L0 : List SEntry) (s : SEntry),
      s ∈ cands.foldl (fun L c => (c.1.skills ++ c.1.buffs).foldl
          (fun L2 p => collect_filter funcdict L2 trigger c.2 c.1 p.1 p.2) L) L0 →
      s ∈ L0 ∨ ∃ c ∈ cands, ∃ p ∈ c.1.skills ++ c.1.buffs,
        (p.2.sktype = "PassiveSkill" ∨ p.2.sktype = "Buff") ∧
        p.2.trigger = trigger ∧ p.2.role = c.2 ∧
        funcdict p.2.effect = some s.func ∧
        s.priority = p.2.priority ∧ s.uid = c.1.uid ∧ s.name = p.1 := by
  intro cands
  induction cands with
  | nil => intro L0 s h; exact Or.inl h
  | cons c cs ih =>
    intro L0 s h
    rcases ih _ s h with hbase | ⟨c2, hc2, rest⟩
    · rcases mem_collect_pairs funcdict trigger c.2 c.1 _ _ _ hbase with hl | ⟨p, hp, hrest⟩
      · exact Or.inl hl
      · exact Or.inr ⟨c, List.mem_cons_self c cs, p, hp, hrest⟩
    · exact Or.inr ⟨c2, List.mem_cons_of_mem c hc2, rest⟩

theorem mem_skillCandidates_elim (st : EngineState) (ctx : Context)
    (c : GameObject × String) (h : c ∈ skillCandidates st ctx) :
    (c.2 = "GLOBAL" ∧ ∃ u ∈ st.alive, c.1 = st.heap u) ∨
    (c.2 = "SOURCE" ∧ ∃ u, ctx.source = CtxVal.ent u ∧ c.1 = st.heap u) ∨
    (c.2 = "TARGET" ∧ ∃ u, ctx.target = CtxVal.ent u ∧ c.1 = st.heap u) := by
  unfold skillCandidates at h
  rcases List.mem_append.1 h with h | h
  · rcases List.mem_append.1 h with h | h
    · rcases List.mem_map.1 h with ⟨u, hu, hc⟩
      exact Or.inl ⟨by rw [← hc], u, hu, by rw [← hc]⟩
    · rcases hs : ctx.source with _ | u | _ | _ <;> rw [hs] at h
      · simp at h
      · have hc : c = (st.heap u, "SOURCE") := by simpa using h
        exact Or.inr (Or.inl ⟨by rw [hc], u, rfl, by rw [hc]⟩)
      · simp at h
      · simp at h
  · rcases hs : ctx.target with _ | u | _ | _ <;> rw [hs] at h
    · simp at h
    · have hc : c = (st.heap u, "TARGET") := by simpa using h
      exact Or.inr (Or.inr ⟨by rw [hc], u, rfl, by rw [hc]⟩)
    · simp at h
    · simp at h

/-- The order the spec requires of collected entries: priority
descending, then owning-entity uid ascending, then entry name ascending. -/
def claimOrd (a b : SEntry) : Prop :=
  b.priority < a.priority ∨ (a.priority = b.priority ∧
    (a.uid < b.uid ∨ (a.uid = b.uid ∧ a.name ≤ b.name)))

theorem keyLE_imp_claimOrd (a b : SEntry) (h : keyLE a b) : claimOrd a b := by
  unfold keyLE at h
  unfold claimOrd
  rcases h with h | ⟨e, h⟩
  · exact Or.inl (by omega)
  · exact Or.inr ⟨by omega, h⟩

/-- C5: the resolver's candidate set is exactly the live entities tagged
GLOBAL plus the context's source/target tagged SOURCE/TARGET when they
are entities; a collected entry survives only if its kind is
passive-skill or buff, its trigger matches the fired trigger and its
role matches its candidate's tag; and the surviving entries are produced
(and invoked, by both trigger paths) sorted by priority descending, then
owning-entity uid ascending, then entry name ascending. -/
theorem skill_resolver_spec (funcdict : String → Option SkFun) (st : EngineState)
    (trigger : Trigger) (ctx : Context) :
    List.Sorted claimOrd (collect_skills_and_buffs funcdict st trigger ctx) ∧
    (∀ s ∈ collect_skills_and_buffs funcdict st trigger ctx,
      ∃ ent role info,
        ((role = "GLOBAL" ∧ ∃ u ∈ st.alive, ent = st.heap u) ∨
         (role = "SOURCE" ∧ ∃ u, ctx.source = CtxVal.ent u ∧ ent = st.heap u) ∨
         (role = "TARGET" ∧ ∃ u, ctx.target = CtxVal.ent u ∧ ent = st.heap u)) ∧
        (s.name, info) ∈ ent.skills ++ ent.buffs ∧
        (info.sktype = "PassiveSkill" ∨ info.sktype = "Buff") ∧
        info.trigger = trigger ∧ info.role = role ∧
        funcdict info.effect = some s.func ∧
        s.priority = info.priority ∧ s.uid = ent.uid) ∧
    (∀ st2 c2 tr, skill_trigger funcdict st trigger ctx = .ok (st2, c2, tr) →
      ∃ n, tr = ((collect_skills_and_buffs funcdict st trigger ctx).take n).map
        (fun s => (s.uid, s.name))) ∧
    (∃ n, (async_skill_trigger funcdict st trigger ctx).2.2 =
      ((collect_skills_and_buffs funcdict st trigger ctx).take n).map
        (fun s => (s.uid, s.name))) := by
  refine ⟨?_, ?_, ?_, ?_⟩
  · unfold collect_skills_and_buffs
    exact (List.sorted_insertionSort keyLE _).imp (fun h => keyLE_imp_claimOrd _ _ h)
  · intro s hs
    unfold collect_skills_and_buffs at hs
    rw [List.mem_insertionSort] at hs
    rcases mem_collect_cands funcdict trigger _ _ s hs with h | ⟨c, hc, p, hp, h1, h2, h3, h4, h5, h6, h7⟩
    · simp at h
    · refine ⟨c.1, c.2, p.2, mem_skillCandidates_elim st ctx c hc, ?_, h1, h2, h3, h4, h5, h6⟩
      rw [h7]
      exact hp
  · intro st2 c2 tr hok
    obtain ⟨n, htr, _⟩ := skillTriggerGo_ok_trace _ st ctx st2 c2 tr hok
    exact ⟨n, htr⟩
  · exact asyncSkillTriggerGo_trace _ st ctx

/-- C8: both synchronous dispatch paths fail loudly on suspension-capable
handlers: `EventBus.emit` raises `RuntimeError` the moment the handler it
is about to invoke is a coroutine function, `SkillManager.skill_trigger`
does the same for a coroutine effect function, and whenever either path
returns normally, the handlers it invoked form a contiguous initial
segment none of which was suspension-capable — no handler is skipped and
no violation is silently swallowed. -/
theorem sync_dispatch_rejects_async (h : HEntry) (rest : List HEntry)
    (s : SEntry) (srest : List SEntry) (st : EngineState) (ctx : Context) :
    (h.isAsync = true →
      emitGo (h :: rest) st ctx = .error "Cannot call async handler in sync emit") ∧
    (∀ st2 c2 tr, emitGo (h :: rest) st ctx = .ok (st2, c2, tr) →
      ∃ n, tr = ((h :: rest).take n).map HEntry.hid ∧
        ∀ g ∈ (h :: rest).take n, g.isAsync = false) ∧
    (s.func.isAsync = true →
      skillTriggerGo (s :: srest) st ctx = .error "Cannot call async skill in sync trigger") ∧
    (∀ st2 c2 tr, skillTriggerGo (s :: srest) st ctx = .ok (st2, c2, tr) →
      ∃ n, tr = ((s :: srest).take n).map (fun g => (g.uid, g.name)) ∧
        ∀ g ∈ (s :: srest).take n, g.func.isAsync = false) := by
  refine ⟨?_, ?_, ?_, ?_⟩
  · intro ha
    unfold emitGo
    rw [if_pos ha]
  · intro st2 c2 tr hok
    exact emitGo_ok_trace (h :: rest) st ctx st2 c2 tr hok
  · intro ha
    unfold skillTriggerGo
    rw [if_pos ha]
  · intro st2 c2 tr hok
    exact skillTriggerGo_ok_trace (s :: srest) st ctx st2 c2 tr hok

/-! ### Concrete data used by the witnesses -/

/-- A dummy entity object. -/
def objW : GameObject :=
  { uid := 0, owner_id := 0, x := 0, y := 0, width := 1, height := 1,
    vertical := false, hp := 0, skills := [], buffs := [] }

/-- A small engine state: empty entity table on a 2×2 map. -/
def stW : EngineState := ⟨fun _ => objW, [], mkGameMap 2 2⟩

/-- A plain dispatch context. -/
def ctxW : Context := ⟨CtxVal.noneV, CtxVal.noneV, 0, none, false⟩

theorem sync_dispatch_rejects_async_witness :
    emitGo [⟨1, true, 0, fun st c => (st, c)⟩] stW ctxW =
      .error "Cannot call async handler in sync emit" ∧
    skillTriggerGo [⟨0, 9, "s", ⟨true, fun st c => (st, c)⟩⟩] stW ctxW =
      .error "Cannot call async skill in sync trigger" :=
  ⟨(sync_dispatch_rejects_async ⟨1, true, 0, fun st c => (st, c)⟩ []
      ⟨0, 9, "s", ⟨true, fun st c => (st, c)⟩⟩ [] stW ctxW).1 rfl,
   (sync_dispatch_rejects_async ⟨1, true, 0, fun st c => (st, c)⟩ []
      ⟨0, 9, "s", ⟨true, fun st c => (st, c)⟩⟩ [] stW ctxW).2.2.1 rfl⟩

/-- Two same-trigger registrations with priorities 0 and 5. -/
def regsW : List (Trigger × HEntry) :=
  [(Trigger.ON_ATTACK, ⟨1, false, 0, fun st c => (st, c)⟩),
   (Trigger.ON_ATTACK, ⟨2, false, 5, fun st c => (st, c)⟩)]

theorem event_bus_order_and_dispatch_witness :
    List.Sorted prioGE ((busOf regsW).listeners Trigger.ON_ATTACK) ∧
    (∃ n, ([2, 1] : List Nat) =
      (((busOf regsW).listeners Trigger.ON_ATTACK).take n).map HEntry.hid) ∧
    (∃ n, (async_emit (busOf regsW) Trigger.ON_ATTACK stW ctxW).2.2 =
      (((busOf regsW).listeners Trigger.ON_ATTACK).take n).map HEntry.hid) :=
  ⟨(event_bus_order_and_dispatch regsW Trigger.ON_ATTACK stW ctxW).1,
   (event_bus_order_and_dispatch regsW Trigger.ON_ATTACK stW ctxW).2.2.1 stW ctxW [2, 1] rfl,
   (event_bus_order_and_dispatch regsW Trigger.ON_ATTACK stW ctxW).2.2.2⟩

/-- A registry resolving one effect identifier. -/
def funcdictW : String → Option SkFun :=
  fun s => if s = "Crispy"
    then some ⟨false, fun st c => (st, { c with value := c.value + 1 })⟩
    else none

/-- An entity with one passive `CALC_DAMAGE`/`TARGET` skill. -/
def entW5 : GameObject :=
  { uid := 2, owner_id := 2, x := 1, y := 1, width := 1, height := 1,
    vertical := false, hp := 7,
    skills := [("crispy", ⟨"PassiveSkill", Trigger.CALC_DAMAGE, "TARGET", "Crispy", 0⟩)],
    buffs := [] }

/-- Engine state owning `entW5` as the only live entity. -/
def stW5 : EngineState := ⟨fun u => if u = 2 then entW5 else objW, [2], mkGameMap 2 2⟩

/-- Dispatch context: source uid 1, target uid 2, value 4. -/
def ctxW5 : Context := ⟨CtxVal.ent 1, CtxVal.ent 2, 4, none, false⟩

theorem skill_resolver_spec_witness :
    List.Sorted claimOrd (collect_skills_and_buffs funcdictW stW5 Trigger.CALC_DAMAGE ctxW5) ∧
    ∃ n, [(2, "crispy")] =
      ((collect_skills_and_buffs funcdictW stW5 Trigger.CALC_DAMAGE ctxW5).take n).map
        (fun s => (s.uid, s.name)) :=
  ⟨(skill_resolver_spec funcdictW stW5 Trigger.CALC_DAMAGE ctxW5).1,
   (skill_resolver_spec funcdictW stW5 Trigger.CALC_DAMAGE ctxW5).2.2.1 stW5
     ⟨CtxVal.ent 1, CtxVal.ent 2, 5, none, false⟩ [(2, "crispy")] rfl⟩

/-! ### The turn engine's combat resolution (`engine.py`) -/

/-- Update an entity object's hit points in the store (`defender.hp -= …`
mutates the shared object all references alias). -/
def setHp (st : EngineState) (u : Nat) (newhp : Int) : EngineState :=
  { st with heap := fun v => if v = u then { st.heap u with hp := newhp } else st.heap v }

/-- `self.game_map.remove_entity(defender)`: clear the defender's current
footprint from the grid and zero the object's anchor coordinates. -/
def remove_from_map (st : EngineState) (u : Nat) : EngineState :=
  { st with
    gmap := (remove_entity st.gmap (st.heap u)).1,
    heap := fun v => if v = u then (remove_entity st.gmap (st.heap u)).2 else st.heap v }

/-- `del self.entities[defender.uid]`: remove the key from the entity
table, raising `KeyError` when it is absent. -/
def delEntity (st : EngineState) (u : Nat) : Except String EngineState :=
  if u ∈ st.alive then .ok { st with alive := st.alive.filter (fun v => v != u) }
  else .error "KeyError"

/-- A `Context` as built at each dispatch point of `_execute_attack` /
`_execute_real_damage`: source entity, target entity, numeric value,
position metadata, stop flag cleared. -/
def attackCtx (src tgt : Nat) (v : Int) (pos : Int × Int) : Context :=
  ⟨CtxVal.ent src, CtxVal.ent tgt, v, some pos, false⟩

/-- A record of one dispatch performed by the combat protocol itself:
the trigger, whether it was dispatched through the suspension-capable
path, and the context's source and target. -/
structure EventRec where
  trig : Trigger
  flow : Bool
  src : CtxVal
  tgt : CtxVal
deriving DecidableEq, Repr

/-- The `BEFORE_ATTACK` dispatch record of step 1. -/
def baRec (atk dfd : Nat) : EventRec :=
  ⟨Trigger.BEFORE_ATTACK, true, CtxVal.ent atk, CtxVal.ent dfd⟩

/-- The synchronous `CALC_DAMAGE` dispatch record of step 2. -/
def cdRec (atk dfd : Nat) : EventRec :=
  ⟨Trigger.CALC_DAMAGE, false, CtxVal.ent atk, CtxVal.ent dfd⟩

/-- The `ON_ATTACK` dispatch record of step 4. -/
def oaRec (atk dfd : Nat) : EventRec :=
  ⟨Trigger.ON_ATTACK, true, CtxVal.ent atk, CtxVal.ent dfd⟩

/-- The `ON_DEATH` dispatch record: source is the defender, target the
attacker. -/
def odRec (atk dfd : Nat) : EventRec :=
  ⟨Trigger.ON_DEATH, true, CtxVal.ent dfd, CtxVal.ent atk⟩

/-- The `ON_KILL` dispatch record: source is the attacker, target the
defender. -/
def okRec (atk dfd : Nat) : EventRec :=
  ⟨Trigger.ON_KILL, true, CtxVal.ent atk, CtxVal.ent dfd⟩

/-- Step 1: the `BEFORE_ATTACK` flow dispatch. -/
def ea1 (bus : EventBus) (st : EngineState) (atk dfd : Nat) (pos : Int × Int) :
    EngineState × Context × List Nat :=
  async_emit bus Trigger.BEFORE_ATTACK st (attackCtx atk dfd 0 pos)

/-- Step 2: the synchronous `CALC_DAMAGE` dispatch, seeded with the
provisional attack value, run on the post-`BEFORE_ATTACK` state. -/
def ea2 (bus : EventBus) (st : EngineState) (atk dfd : Nat) (attack : Int)
    (pos : Int × Int) : Except String (EngineState × Context × List Nat) :=
  emit bus Trigger.CALC_DAMAGE (ea1 bus st atk dfd pos).1 (attackCtx atk dfd attack pos)

/-- Step 3: subtract the final damage from the defender's hit points. -/
def ea3 (st2 : EngineState) (dfd : Nat) (final : Int) : EngineState :=
  setHp st2 dfd ((st2.heap dfd).hp - final)

/-- Steps 4–5: the `ON_ATTACK` flow dispatch on the post-subtraction
state; its first component is the state the death check reads. -/
def eaAtkState (bus : EventBus) (st2 : EngineState) (atk dfd : Nat) (final : Int)
    (pos : Int × Int) : EngineState :=
  (async_emit bus Trigger.ON_ATTACK (ea3 st2 dfd final) (attackCtx atk dfd final pos)).1

/-- Step 6's dispatches: `ON_DEATH` (source = defender, target =
attacker) followed by `ON_KILL` (source = attacker, target = defender);
the resulting state is re-checked for death. -/
def eaDeathState (bus : EventBus) (st4 : EngineState) (atk dfd : Nat) (final : Int)
    (pos : Int × Int) : EngineState :=
  (async_emit bus Trigger.ON_KILL
    (async_emit bus Trigger.ON_DEATH st4 (attackCtx dfd atk final pos)).1
    (attackCtx atk dfd final pos)).1

/-- Steps 3–7 of `GameEngine._execute_attack`, once the final damage is
known: subtract hit points, dispatch `ON_ATTACK`, and run the death
check (`ON_DEATH`, `ON_KILL`, re-check, removal). -/
def execute_attack_after (bus : EventBus) (st2 : EngineState) (atk dfd : Nat)
    (final : Int) (pos : Int × Int) : Except String (EngineState × List EventRec) :=
  if ((eaAtkState bus st2 atk dfd final pos).heap dfd).hp ≤ 0 then
    if ((eaDeathState bus (eaAtkState bus st2 atk dfd final pos) atk dfd
          final pos).heap dfd).hp ≤ 0 then
      match delEntity (remove_from_map
          (eaDeathState bus (eaAtkState bus st2 atk dfd final pos) atk dfd
            final pos) dfd) dfd with
      | .error e => .error e
      | .ok stf =>
        .ok (stf, [baRec atk dfd, cdRec atk dfd, oaRec atk dfd,
          odRec atk dfd, okRec atk dfd])
    else
      .ok (eaDeathState bus (eaAtkState bus st2 atk dfd final pos) atk dfd final pos,
        [baRec atk dfd, cdRec atk dfd, oaRec atk dfd, odRec atk dfd, okRec atk dfd])
  else
    .ok (eaAtkState bus st2 atk dfd final pos,
      [baRec atk dfd, cdRec atk dfd, oaRec atk dfd])

/-- `GameEngine._execute_attack`, instrumented with the list of
dispatches the protocol itself performs, in order. -/
def execute_attack (bus : EventBus) (st : EngineState) (atk dfd : Nat)
    (attack : Int) (pos : Int × Int) : Except String (EngineState × List EventRec) :=
  if (ea1 bus st atk dfd pos).2.1.is_stopped then
    .ok ((ea1 bus st atk dfd pos).1, [baRec atk dfd])
  else
    match ea2 bus st atk dfd attack pos with
    | .error e => .error e
    | .ok r => execute_attack_after bus r.1 atk dfd r.2.1.value pos

theorem execute_attack_after_spec (bus : EventBus) (st2 : EngineState) (atk dfd : Nat)
    (final : Int) (pos : Int × Int) (stf : EngineState) (tr : List EventRec)
    (hok : execute_attack_after bus st2 atk dfd final pos = .ok (stf, tr)) :
    (((eaAtkState bus st2 atk dfd final pos).heap dfd).hp > 0 →
      stf = eaAtkState bus st2 atk dfd final pos ∧
      tr = [baRec atk dfd, cdRec atk dfd, oaRec atk dfd]) ∧
    (((eaAtkState bus st2 atk dfd final pos).heap dfd).hp ≤ 0 →
      tr = [baRec atk dfd, cdRec atk dfd, oaRec atk dfd, odRec atk dfd, okRec atk dfd] ∧
      (((eaDeathState bus (eaAtkState bus st2 atk dfd final pos) atk dfd
          final pos).heap dfd).hp ≤ 0 →
        delEntity (remove_from_map
          (eaDeathState bus (eaAtkState bus st2 atk dfd final pos) atk dfd
            final pos) dfd) dfd = .ok stf ∧
        dfd ∉ stf.alive) ∧
      (((eaDeathState bus (eaAtkState bus st2 atk dfd final pos) atk dfd
          final pos).heap dfd).hp > 0 →
        stf = eaDeathState bus (eaAtkState bus st2 atk dfd final pos) atk dfd
          final pos)) := by
  unfold execute_attack_after at hok
  by_cases hdeath : ((eaAtkState bus st2 atk dfd final pos).heap dfd).hp ≤ 0
  · rw [if_pos hdeath] at hok
    by_cases hfinal : ((eaDeathState bus (eaAtkState bus st2 atk dfd final pos)
        atk dfd final pos).heap dfd).hp ≤ 0
    · rw [if_pos hfinal] at hok
      rcases hdel : delEntity (remove_from_map
          (eaDeathState bus (eaAtkState bus st2 atk dfd final pos) atk dfd
            final pos) dfd) dfd with e | stf2
      · rw [hdel] at hok
        exact absurd hok (by simp)
      · rw [hdel] at hok
        have hok2 : (Except.ok (stf2, [baRec atk dfd, cdRec atk dfd, oaRec atk dfd,
            odRec atk dfd, okRec atk dfd]) :
            Except String (EngineState × List EventRec)) = .ok (stf, tr) := hok
        injection hok2 with hok3
        injection hok3 with he ht
        refine ⟨?_, ?_⟩
        · intro hcon
          omega
        · intro _
          refine ⟨ht.symm, ?_, ?_⟩
          · intro _
            refine ⟨?_, ?_⟩
            · rw [he]
            · unfold delEntity at hdel
              by_cases hmem : dfd ∈ (remove_from_map
                  (eaDeathState bus (eaAtkState bus st2 atk dfd final pos) atk dfd
                    final pos) dfd).alive
              · rw [if_pos hmem] at hdel
                injection hdel with hdel2
                rw [← he, ← hdel2]
                intro hcon
                simp only [List.mem_filter] at hcon
                have := hcon.2
                simp at this
              · rw [if_neg hmem] at hdel
                exact absurd hdel (by simp)
          · intro hcon
            omega
    · rw [if_neg hfinal] at hok
      injection hok with hok2
      injection hok2 with he ht
      exact ⟨fun hcon => by omega, fun _ => ⟨ht.symm, fun hcon => by omega,
        fun _ => he.symm⟩⟩
  · rw [if_neg hdeath] at hok
    injection hok with hok2
    injection hok2 with he ht
    exact ⟨fun _ => ⟨he.symm, ht.symm⟩, fun hcon => by omega⟩

/-- C1: the combat resolution protocol performs its steps in exactly the
specified order.  `BEFORE_ATTACK` is always the first dispatch, as a flow
event; if it leaves the context stopped the protocol aborts with no
further dispatch and no change to the defender's hit points beyond the
handlers' own effects; otherwise `CALC_DAMAGE` is dispatched
synchronously seeded with the provisional attack value, the resulting
final damage is subtracted from the defender's hit points, `ON_ATTACK`
is dispatched as a flow event, and iff the defender's hit points are
then ≤ 0, `ON_DEATH` (source = defender, target = attacker) is
dispatched strictly before `ON_KILL` (source = attacker, target =
defender), hit points are re-checked after both, and the defender is
removed from both the grid and the entity table iff they are still ≤ 0. -/
theorem execute_attack_protocol (bus : EventBus) (st : EngineState) (atk dfd : Nat)
    (attack : Int) (pos : Int × Int) (stf : EngineState) (tr : List EventRec)
    (hok : execute_attack bus st atk dfd attack pos = .ok (stf, tr)) :
    tr.head? = some (baRec atk dfd) ∧
    ((ea1 bus st atk dfd pos).2.1.is_stopped = true →
      stf = (ea1 bus st atk dfd pos).1 ∧ tr = [baRec atk dfd] ∧
      (stf.heap dfd).hp = ((ea1 bus st atk dfd pos).1.heap dfd).hp) ∧
    ((ea1 bus st atk dfd pos).2.1.is_stopped = false →
      ∃ st2 dctx tr2, ea2 bus st atk dfd attack pos = .ok (st2, dctx, tr2) ∧
        ((ea3 st2 dfd dctx.value).heap dfd).hp = (st2.heap dfd).hp - dctx.value ∧
        (((eaAtkState bus st2 atk dfd dctx.value pos).heap dfd).hp > 0 →
          stf = eaAtkState bus st2 atk dfd dctx.value pos ∧
          tr = [baRec atk dfd, cdRec atk dfd, oaRec atk dfd]) ∧
        (((eaAtkState bus st2 atk dfd dctx.value pos).heap dfd).hp ≤ 0 →
          tr = [baRec atk dfd, cdRec atk dfd, oaRec atk dfd,
            odRec atk dfd, okRec atk dfd] ∧
          (((eaDeathState bus (eaAtkState bus st2 atk dfd dctx.value pos) atk dfd
              dctx.value pos).heap dfd).hp ≤ 0 →
            delEntity (remove_from_map
              (eaDeathState bus (eaAtkState bus st2 atk dfd dctx.value pos) atk dfd
                dctx.value pos) dfd) dfd = .ok stf ∧
            dfd ∉ stf.alive) ∧
          (((eaDeathState bus (eaAtkState bus st2 atk dfd dctx.value pos) atk dfd
              dctx.value pos).heap dfd).hp > 0 →
            stf = eaDeathState bus (eaAtkState bus st2 atk dfd dctx.value pos) atk dfd
              dctx.value pos))) := by
  unfold execute_attack at hok
  by_cases hstop : (ea1 bus st atk dfd pos).2.1.is_stopped = true
  · rw [if_pos hstop] at hok
    injection hok with hok2
    injection hok2 with he ht
    refine ⟨by rw [← ht]; rfl, ?_, ?_⟩
    · intro _
      exact ⟨he.symm, ht.symm, by rw [he]⟩
    · intro hcon
      rw [hstop] at hcon
      exact absurd hcon (by simp)
  · rw [if_neg hstop] at hok
    have hstop2 : (ea1 bus st atk dfd pos).2.1.is_stopped = false := by
      cases hb : (ea1 bus st atk dfd pos).2.1.is_stopped
      · rfl
      · exact absurd hb hstop
    rcases hcd : ea2 bus st atk dfd attack pos with e | ⟨st2, dctx, tr2⟩
    · rw [hcd] at hok
      exact absurd hok (by simp)
    · rw [hcd] at hok
      have hokA : execute_attack_after bus st2 atk dfd dctx.value pos =
          .ok (stf, tr) := hok
      have hspec := execute_attack_after_spec bus st2 atk dfd dctx.value pos stf tr hokA
      have hhead : tr.head? = some (baRec atk dfd) := by
        by_cases hdeath : ((eaAtkState bus st2 atk dfd dctx.value pos).heap dfd).hp ≤ 0
        · rw [(hspec.2 hdeath).1]; rfl
        · rw [(hspec.1 (by omega)).2]; rfl
      refine ⟨hhead, ?_, ?_⟩
      · intro hcon
        rw [hstop2] at hcon
        exact absurd hcon (by simp)
      · intro _
        exact ⟨st2, dctx, tr2, rfl, by unfold ea3 setHp; simp, hspec.1, hspec.2⟩

/-- A 1×1 attacker with uid 1. -/
def atkObjW : GameObject :=
  { uid := 1, owner_id := 1, x := 1, y := 1, width := 1, height := 1,
    vertical := false, hp := 10, skills := [], buffs := [] }

/-- A 1×1 defender with uid 2 and 3 hit points. -/
def dfdObjW : GameObject :=
  { uid := 2, owner_id := 2, x := 2, y := 1, width := 1, height := 1,
    vertical := false, hp := 3, skills := [], buffs := [] }

/-- Engine state holding the attacker and the 3-hit-point defender. -/
def stBattle : EngineState :=
  ⟨fun u => if u = 2 then dfdObjW else atkObjW, [1, 2], mkGameMap 3 3⟩

theorem execute_attack_protocol_witness :
    ∃ p, execute_attack emptyBus stBattle 1 2 4 (2, 1) = .ok p ∧
      p.2.head? = some (baRec 1 2) :=
  ⟨_, rfl, (execute_attack_protocol emptyBus stBattle 1 2 4 (2, 1) _ _ rfl).1⟩

/-- Step 3 of `GameEngine._execute_real_damage`: subtract the raw damage
(no `CALC_DAMAGE` dispatch). -/
def erd1 (st : EngineState) (dfd : Nat) (damage : Int) : EngineState :=
  setHp st dfd ((st.heap dfd).hp - damage)

/-- The `ON_DEATH` flow dispatch of `_execute_real_damage`'s death
branch (source = defender, target = attacker). -/
def erdDeathState (bus : EventBus) (st1 : EngineState) (atk dfd : Nat)
    (damage : Int) (pos : Int × Int) : EngineState :=
  (async_emit bus Trigger.ON_DEATH st1 (attackCtx dfd atk damage pos)).1

/-- `GameEngine._execute_real_damage`, instrumented with the dispatches
it performs: subtract the damage, and if hit points are ≤ 0 dispatch
`ON_DEATH`, re-check, and remove the defender from grid and entity table
iff still ≤ 0.  The Python body contains no `CALC_DAMAGE` and no
`ON_KILL` dispatch. -/
def execute_real_damage (bus : EventBus) (st : EngineState) (atk dfd : Nat)
    (damage : Int) (pos : Int × Int) : Except String (EngineState × List EventRec) :=
  if ((erd1 st dfd damage).heap dfd).hp ≤ 0 then
    if ((erdDeathState bus (erd1 st dfd damage) atk dfd damage pos).heap dfd).hp ≤ 0 then
      match delEntity (remove_from_map
          (erdDeathState bus (erd1 st dfd damage) atk dfd damage pos) dfd) dfd with
      | .error e => .error e
      | .ok stf => .ok (stf, [odRec atk dfd])
    else .ok (erdDeathState bus (erd1 st dfd damage) atk dfd damage pos, [odRec atk dfd])
  else .ok (erd1 st dfd damage, [])

/-- C6 counterexample: on the true-damage path a lethal hit removes the
defender from the entity table and dispatches `ON_DEATH`, but — contrary
to the claim that the full step-5 death handling (ON_DEATH then ON_KILL)
runs — no `ON_KILL` dispatch occurs at all. -/
theorem execute_real_damage_no_onkill :
    ∃ p, execute_real_damage emptyBus stBattle 1 2 4 (2, 1) = .ok p ∧
      2 ∉ p.1.alive ∧ odRec 1 2 ∈ p.2 ∧ ∀ r ∈ p.2, r.trig ≠ Trigger.ON_KILL :=
  ⟨_, rfl, by decide, by decide, by decide⟩

/-- C6 (amended): the true-damage path performs no `CALC_DAMAGE` and no
`ON_KILL` dispatch; it subtracts the damage from the defender's hit
points, and if they are then ≤ 0 it dispatches `ON_DEATH` (source =
defender, target = attacker), re-checks the hit points, and removes the
defender from both the grid and the entity table iff they are still
≤ 0. -/
theorem execute_real_damage_behaviour (bus : EventBus) (st : EngineState)
    (atk dfd : Nat) (damage : Int) (pos : Int × Int) (stf : EngineState)
    (tr : List EventRec)
    (hok : execute_real_damage bus st atk dfd damage pos = .ok (stf, tr)) :
    (∀ r ∈ tr, r.trig ≠ Trigger.CALC_DAMAGE ∧ r.trig ≠ Trigger.ON_KILL) ∧
    ((erd1 st dfd damage).heap dfd).hp = (st.heap dfd).hp - damage ∧
    (((erd1 st dfd damage).heap dfd).hp > 0 → stf = erd1 st dfd damage ∧ tr = []) ∧
    (((erd1 st dfd damage).heap dfd).hp ≤ 0 →
      tr = [odRec atk dfd] ∧
      (((erdDeathState bus (erd1 st dfd damage) atk dfd damage pos).heap dfd).hp ≤ 0 →
        delEntity (remove_from_map
          (erdDeathState bus (erd1 st dfd damage) atk dfd damage pos) dfd) dfd =
            .ok stf ∧
        dfd ∉ stf.alive) ∧
      (((erdDeathState bus (erd1 st dfd damage) atk dfd damage pos).heap dfd).hp > 0 →
        stf = erdDeathState bus (erd1 st dfd damage) atk dfd damage pos)) := by
  have hsub : ((erd1 st dfd damage).heap dfd).hp = (st.heap dfd).hp - damage := by
    unfold erd1 setHp
    simp
  unfold execute_real_damage at hok
  by_cases hd : ((erd1 st dfd damage).heap dfd).hp ≤ 0
  · rw [if_pos hd] at hok
    by_cases hd2 : ((erdDeathState bus (erd1 st dfd damage) atk dfd damage pos).heap
        dfd).hp ≤ 0
    · rw [if_pos hd2] at hok
      rcases hdel : delEntity (remove_from_map
          (erdDeathState bus (erd1 st dfd damage) atk dfd damage pos) dfd) dfd with
        e | stf2
      · rw [hdel] at hok
        exact absurd hok (by simp)
      · rw [hdel] at hok
        have hok2 : (Except.ok (stf2, [odRec atk dfd]) :
            Except String (EngineState × List EventRec)) = .ok (stf, tr) := hok
        injection hok2 with hok3
        injection hok3 with he ht
        refine ⟨?_, hsub, ?_, ?_⟩
        · intro r hr
          rw [← ht] at hr
          simp only [List.mem_singleton] at hr
          rw [hr]
          exact ⟨by simp [odRec], by simp [odRec]⟩
        · intro hcon
          omega
        · intro _
          refine ⟨ht.symm, ?_, ?_⟩
          · intro _
            refine ⟨by rw [he], ?_⟩
            unfold delEntity at hdel
            by_cases hmem : dfd ∈ (remove_from_map
                (erdDeathState bus (erd1 st dfd damage) atk dfd damage pos) dfd).alive
            · rw [if_pos hmem] at hdel
              injection hdel with hdel2
              rw [← he, ← hdel2]
              intro hcon
              simp only [List.mem_filter] at hcon
              have := hcon.2
              simp at this
            · rw [if_neg hmem] at hdel
              exact absurd hdel (by simp)
          · intro hcon
            omega
    · rw [if_neg hd2] at hok
      injection hok with hok2
      injection hok2 with he ht
      refine ⟨?_, hsub, ?_, ?_⟩
      · intro r hr
        rw [← ht] at hr
        simp only [List.mem_singleton] at hr
        rw [hr]
        exact ⟨by simp [odRec], by simp [odRec]⟩
      · intro hcon
        omega
      · intro _
        exact ⟨ht.symm, fun hcon => by omega, fun _ => he.symm⟩
  · rw [if_neg hd] at hok
    injection hok with hok2
    injection hok2 with he ht
    refine ⟨?_, hsub, ?_, ?_⟩
    · intro r hr
      rw [← ht] at hr
      simp at hr
    · intro _
      exact ⟨he.symm, ht.symm⟩
    · intro hcon
      omega

theorem execute_real_damage_behaviour_witness :
    ∃ p, execute_real_damage emptyBus stBattle 1 2 4 (2, 1) = .ok p ∧
      ∀ r ∈ p.2, r.trig ≠ Trigger.CALC_DAMAGE ∧ r.trig ≠ Trigger.ON_KILL :=
  ⟨_, rfl, (execute_real_damage_behaviour emptyBus stBattle 1 2 4 (2, 1) _ _ rfl).1⟩

/-! ### The decision-request protocol (`engine.py`, `request_input`) -/

/-- The `UIRequest` dataclass (identifying fields). -/
structure UIRequest where
  request_id : String
  player_id : Nat
  rtype : String
  message : String
  allow_cancel : Bool
deriving DecidableEq, Repr

/-- The engine's interaction slots: `_current_request` and the
`_input_future` slot (modelled by whether a fresh future is installed). -/
structure InteractState where
  es : EngineState
  current_request : Option UIRequest
  input_future : Bool

/-- The context built for the `ON_INPUT_REQUEST` broadcast (source = the
requesting player's state, the request itself rides in the data bag). -/
def inputRequestCtx (pid : Nat) : Context :=
  ⟨CtxVal.player pid, CtxVal.noneV, 0, none, false⟩

/-- `GameEngine.request_input` up to its suspension point: store the
request in `_current_request` (unconditionally — the Python body
contains no check of a previously pending request), create a fresh
future, and broadcast `ON_INPUT_REQUEST` synchronously (whose dispatch
can raise on a coroutine handler). -/
def request_input_start (bus : EventBus) (s : InteractState) (req : UIRequest) :
    Except String InteractState :=
  match emit bus Trigger.ON_INPUT_REQUEST s.es (inputRequestCtx req.player_id) with
  | .error e => .error e
  | .ok r => .ok ⟨r.1, some req, true⟩

/-- A pending main-menu request. -/
def reqA : UIRequest := ⟨"r1", 1, "MAIN_TURN_MENU", "", false⟩

/-- A second request issued while `reqA` is still pending. -/
def reqB : UIRequest := ⟨"r2", 1, "MAIN_TURN_MENU", "", false⟩

/-- An interaction state with `reqA` pending. -/
def pendingS : InteractState := ⟨stW, some reqA, true⟩

/-- C9 counterexample: with a request already pending, a second
`request_input` call does not raise — it returns normally and replaces
the pending request in the current-request slot. -/
theorem request_input_no_pending_error :
    pendingS.current_request ≠ none ∧
    request_input_start emptyBus pendingS reqB = .ok ⟨stW, some reqB, true⟩ ∧
    (⟨stW, some reqB, true⟩ : InteractState).current_request ≠ some reqA :=
  ⟨by decide, rfl, by decide⟩

/-- C9 (amended): `request_input` performs no pending-request check: on
every call that returns normally — regardless of whether a request was
already pending — the current-request slot holds the new request and a
fresh input future is installed, and the only error it can raise is one
propagated from the `ON_INPUT_REQUEST` broadcast, not a contract
violation about a pending request. -/
theorem request_input_overwrites_pending (bus : EventBus) (s : InteractState)
    (req : UIRequest) :
    (∀ stf, request_input_start bus s req = .ok stf →
      stf.current_request = some req ∧ stf.input_future = true) ∧
    (∀ e, request_input_start bus s req = .error e →
      emit bus Trigger.ON_INPUT_REQUEST s.es (inputRequestCtx req.player_id) =
        .error e) := by
  constructor
  · intro stf hok
    unfold request_input_start at hok
    rcases hem : emit bus Trigger.ON_INPUT_REQUEST s.es (inputRequestCtx req.player_id)
      with e | r
    · rw [hem] at hok
      exact absurd hok (by simp)
    · rw [hem] at hok
      have hok2 : (Except.ok (⟨r.1, some req, true⟩ : InteractState) :
          Except String InteractState) = .ok stf := hok
      injection hok2 with h2
      rw [← h2]
      exact ⟨rfl, rfl⟩
  · intro e herr
    unfold request_input_start at herr
    rcases hem : emit bus Trigger.ON_INPUT_REQUEST s.es (inputRequestCtx req.player_id)
      with e2 | r
    · rw [hem] at herr
      have h2 : (Except.error e2 : Except String InteractState) = .error e := herr
      injection h2 with h3
      rw [h3]
    · rw [hem] at herr
      exact absurd herr (by simp)

theorem request_input_overwrites_pending_witness :
    ∃ stf, request_input_start emptyBus pendingS reqB = .ok stf ∧
      stf.current_request = some reqB ∧ stf.input_future = true :=
  ⟨_, rfl, (request_input_overwrites_pending emptyBus pendingS reqB).1 _ rfl⟩

/-! ### Shaped range queries (`maps.py`, `calc_range_positions`) -/

/-- The range-shape tokens: `*` (chebyshev), `+` (manhattan), `-`
(line), `x` (diagonal), `h` (knight). -/
inductive RType where
  | star
  | plus
  | line
  | diag
  | knight
deriving DecidableEq, Repr

/-- A range descriptor `{Type, Min, Max}`. -/
structure RangeInfo where
  rtype : RType
  rmin : Int
  rmax : Int
deriving DecidableEq, Repr

/-- The eight knight-move cells around `(ex, ey)`, in source order. -/
def knight_moves (ex ey : Int) : List (Int × Int) :=
  [(ex - 2, ey - 1), (ex - 2, ey + 1), (ex + 2, ey - 1), (ex + 2, ey + 1),
   (ex - 1, ey - 2), (ex - 1, ey + 2), (ex + 1, ey - 2), (ex + 1, ey + 2)]

/-- The per-axis gap computation of `calc_range_positions`: distance
from coordinate `pt` to the nearest cell of the interval
`[lo, lo+len)`. -/
def gapAt (lo len pt : Int) : Int :=
  if pt < lo then lo - pt
  else if pt ≥ lo + len then pt - (lo + len - 1)
  else 0

/-- The shape-validity test applied to each scanned cell, written with
the exact distance formulas of the source (`max dx dy`, `dx + dy`, the
single-axis cases, and `(|dx-dy| + |dx+dy|) / 2` under the
even-parity guard). -/
def shapeOkB (rt : RType) (rmin rmax dx dy : Int) : Bool :=
  match rt with
  | RType.star => decide (rmin ≤ max dx dy ∧ max dx dy ≤ rmax)
  | RType.plus => decide (rmin ≤ dx + dy ∧ dx + dy ≤ rmax)
  | RType.line => decide ((dx = 0 ∧ 0 < dy ∧ rmin ≤ dy ∧ dy ≤ rmax) ∨
      (dy = 0 ∧ 0 < dx ∧ rmin ≤ dx ∧ dx ≤ rmax))
  | RType.diag => decide ((dx + dy) % 2 = 0 ∧
      rmin ≤ (|dx - dy| + |dx + dy|) / 2 ∧ (|dx - dy| + |dx + dy|) / 2 ≤ rmax)
  | RType.knight => false

/-- The general distance-field scan of `calc_range_positions`: the
bounding box that extends the footprint by `Max`, clipped to the board;
the footprint itself is skipped and each remaining cell is classified by
the shape's distance formula over the per-axis gaps. -/
def scanList (m : GameMap) (e : GameObject) (ri : RangeInfo) : List (Int × Int) :=
  (intRange (max 1 (e.x - ri.rmax))
      (min m.width (e.x + dimW e + ri.rmax - 1) + 1)).flatMap
    (fun px => (intRange (max 1 (e.y - ri.rmax))
        (min m.height (e.y + dimH e + ri.rmax - 1) + 1)).filterMap
      (fun py =>
        if e.x ≤ px ∧ px < e.x + dimW e ∧ e.y ≤ py ∧ py < e.y + dimH e then none
        else if shapeOkB ri.rtype ri.rmin ri.rmax
            (gapAt e.x (dimW e) px) (gapAt e.y (dimH e) py)
        then some (px, py) else none))

/-- `GameMap.calc_range_positions`: knight gets its fixed eight cells
(after validating a 1×1 footprint and `Min = Max = 1`); the diagonal
shape requires a 1×1 footprint; the remaining shapes run the general
distance-field scan. -/
def calc_range_positions (m : GameMap) (e : GameObject) (ri : RangeInfo) :
    Except String (List (Int × Int)) :=
  if ri.rtype = RType.knight then
    if dimW e ≠ 1 ∨ dimH e ≠ 1 then
      .error "Range type h only supports 1*1 entities"
    else if ri.rmin ≠ 1 ∨ ri.rmax ≠ 1 then
      .error "Range type h only supports Min=1 and Max=1"
    else
      .ok ((knight_moves e.x e.y).filter (fun p => !(decide (m.oob p.1 p.2))))
  else if ri.rtype = RType.diag ∧ (dimW e ≠ 1 ∨ dimH e ≠ 1) then
    .error "Range type x only supports 1*1 entities"
  else
    .ok (scanList m e ri)

/-- The horizontal axis gap as the spec words it: the distance from the
query column to the nearest column of the footprint rectangle. -/
def gapx (e : GameObject) (px : Int) : Int :=
  max 0 (max (e.x - px) (px - (e.x + dimW e - 1)))

/-- The vertical axis gap. -/
def gapy (e : GameObject) (py : Int) : Int :=
  max 0 (max (e.y - py) (py - (e.y + dimH e - 1)))

/-- Membership in the entity's own footprint rectangle. -/
def inFootprint (e : GameObject) (p : Int × Int) : Prop :=
  e.x ≤ p.1 ∧ p.1 < e.x + dimW e ∧ e.y ≤ p.2 ∧ p.2 < e.y + dimH e

instance (e : GameObject) (p : Int × Int) : Decidable (inFootprint e p) := by
  unfold inFootprint; infer_instance

/-- The claim's per-shape distance condition: max of the axis gaps for
chebyshev within `[min, max]`; their sum for manhattan; the nonzero axis
gap with the other zero for line; the max of the gaps under even
gap-sum parity for diagonal; the eight knight-offset cells for knight. -/
def claimValid (e : GameObject) (ri : RangeInfo) (p : Int × Int) : Prop :=
  match ri.rtype with
  | RType.star => ri.rmin ≤ max (gapx e p.1) (gapy e p.2) ∧
      max (gapx e p.1) (gapy e p.2) ≤ ri.rmax
  | RType.plus => ri.rmin ≤ gapx e p.1 + gapy e p.2 ∧
      gapx e p.1 + gapy e p.2 ≤ ri.rmax
  | RType.line =>
      (gapx e p.1 = 0 ∧ gapy e p.2 ≠ 0 ∧ ri.rmin ≤ gapy e p.2 ∧ gapy e p.2 ≤ ri.rmax) ∨
      (gapy e p.2 = 0 ∧ gapx e p.1 ≠ 0 ∧ ri.rmin ≤ gapx e p.1 ∧ gapx e p.1 ≤ ri.rmax)
  | RType.diag => (gapx e p.1 + gapy e p.2) % 2 = 0 ∧
      ri.rmin ≤ max (gapx e p.1) (gapy e p.2) ∧
      max (gapx e p.1) (gapy e p.2) ≤ ri.rmax
  | RType.knight => p ∈ knight_moves e.x e.y

instance (e : GameObject) (ri : RangeInfo) (p : Int × Int) :
    Decidable (claimValid e ri p) := by
  unfold claimValid
  cases ri.rtype <;> infer_instance

theorem gapAt_eq (lo len pt : Int) (hlen : 1 ≤ len) :
    gapAt lo len pt = max 0 (max (lo - pt) (pt - (lo + len - 1))) := by
  unfold gapAt
  by_cases h1 : pt < lo
  · rw [if_pos h1]
    omega
  · rw [if_neg h1]
    by_cases h2 : pt ≥ lo + len
    · rw [if_pos h2]
      omega
    · rw [if_neg h2]
      omega

theorem diag_dist_eq (dx dy : Int) (hx : 0 ≤ dx) (hy : 0 ≤ dy) :
    (|dx - dy| + |dx + dy|) / 2 = max dx dy := by
  have habs : |dx - dy| + |dx + dy| = 2 * max dx dy := by
    rcases abs_cases (dx - dy) with ⟨h1, h2⟩ | ⟨h1, h2⟩ <;>
      rcases abs_cases (dx + dy) with ⟨h3, h4⟩ | ⟨h3, h4⟩ <;>
      rcases max_cases dx dy with ⟨h5, h6⟩ | ⟨h5, h6⟩ <;>
      omega
  rw [habs]
  exact Int.mul_ediv_cancel_left _ (by norm_num)

theorem not_oob_iff (m : GameMap) (x y : Int) : ¬ m.oob x y ↔ inB m x y := by
  unfold GameMap.oob inB
  omega

theorem knight_not_center (ex ey : Int) (p : Int × Int)
    (hp : p ∈ knight_moves ex ey) : ¬ (p.1 = ex ∧ p.2 = ey) := by
  unfold knight_moves at hp
  simp only [List.mem_cons, List.not_mem_nil, or_false] at hp
  rcases hp with h | h | h | h | h | h | h | h <;> (rw [h]; intro hc; omega)

theorem max_gap_le {lo len pt r : Int}
    (h : max 0 (max (lo - pt) (pt - (lo + len - 1))) ≤ r) :
    lo - pt ≤ r ∧ pt - (lo + len - 1) ≤ r ∧ 0 ≤ r := by
  rw [max_le_iff, max_le_iff] at h
  omega

theorem calc_range_mem (m : GameMap) (e : GameObject) (ri : RangeInfo) (p : Int × Int)
    (hw : 1 ≤ dimW e) (hh : 1 ≤ dimH e)
    (hdiag : ri.rtype = RType.diag → dimW e = 1 ∧ dimH e = 1)
    (hkn : ri.rtype = RType.knight →
      dimW e = 1 ∧ dimH e = 1 ∧ ri.rmin = 1 ∧ ri.rmax = 1) :
    ∃ l, calc_range_positions m e ri = .ok l ∧
      (p ∈ l ↔ inB m p.1 p.2 ∧ ¬ inFootprint e p ∧ claimValid e ri p) := by
  by_cases hrt : ri.rtype = RType.knight
  · obtain ⟨hw1, hh1, hm1, hM1⟩ := hkn hrt
    refine ⟨(knight_moves e.x e.y).filter (fun q => !(decide (m.oob q.1 q.2))), ?_, ?_⟩
    · unfold calc_range_positions
      rw [if_pos hrt, if_neg (by omega), if_neg (by omega)]
    · rw [List.mem_filter]
      constructor
      · rintro ⟨hmem, hb⟩
        have hoob : ¬ m.oob p.1 p.2 := by
          simpa using hb
        refine ⟨(not_oob_iff m p.1 p.2).1 hoob, ?_, ?_⟩
        · have hnc := knight_not_center e.x e.y p hmem
          unfold inFootprint
          rw [hw1, hh1]
          intro hfp
          exact hnc ⟨by omega, by omega⟩
        · unfold claimValid
          rw [hrt]
          exact hmem
      · rintro ⟨hb, _, hcv⟩
        unfold claimValid at hcv
        rw [hrt] at hcv
        refine ⟨hcv, ?_⟩
        simp only [Bool.not_eq_eq_eq_not, Bool.not_true, decide_eq_false_iff_not]
        exact (not_oob_iff m p.1 p.2).2 hb
  · by_cases hdg : ri.rtype = RType.diag ∧ (dimW e ≠ 1 ∨ dimH e ≠ 1)
    · exact absurd (hdiag hdg.1) (by omega)
    · refine ⟨scanList m e ri, ?_, ?_⟩
      · unfold calc_range_positions
        rw [if_neg hrt, if_neg hdg]
      unfold scanList
      have hgx : gapAt e.x (dimW e) p.1 = gapx e p.1 := by
        rw [gapAt_eq _ _ _ hw]
        rfl
      have hgy : gapAt e.y (dimH e) p.2 = gapy e p.2 := by
        rw [gapAt_eq _ _ _ hh]
        rfl
      have hgx0 : 0 ≤ gapx e p.1 := le_max_left 0 _
      have hgy0 : 0 ≤ gapy e p.2 := le_max_left 0 _
      constructor
      · intro hmem
        rw [List.mem_flatMap] at hmem
        obtain ⟨px, hpx, hmem2⟩ := hmem
        rw [List.mem_filterMap] at hmem2
        obtain ⟨py, hpy, hsome⟩ := hmem2
        rw [mem_intRange] at hpx
        rw [mem_intRange] at hpy
        by_cases hfp : e.x ≤ px ∧ px < e.x + dimW e ∧ e.y ≤ py ∧ py < e.y + dimH e
        · rw [if_pos hfp] at hsome
          exact absurd hsome (by simp)
        · rw [if_neg hfp] at hsome
          by_cases hok : shapeOkB ri.rtype ri.rmin ri.rmax
              (gapAt e.x (dimW e) px) (gapAt e.y (dimH e) py) = true
          · rw [if_pos hok] at hsome
            have hpq : (px, py) = p := by
              injection hsome
            have hp1 : px = p.1 := congrArg Prod.fst hpq
            have hp2 : py = p.2 := congrArg Prod.snd hpq
            rw [hp1] at hpx hfp hok
            rw [hp2] at hpy hfp hok
            rw [max_le_iff] at hpx hpy
            rw [Int.lt_add_one_iff, le_min_iff] at hpx hpy
            refine ⟨⟨by omega, by omega, by omega, by omega⟩, ?_, ?_⟩
            · unfold inFootprint
              exact hfp
            · unfold claimValid
              unfold shapeOkB at hok
              rcases hrtv : ri.rtype with _ | _ | _ | _ | _
              · rw [hrtv] at hok
                simpa [hgx, hgy] using hok
              · rw [hrtv] at hok
                simpa [hgx, hgy] using hok
              · rw [hrtv] at hok
                have hok2 : gapx e p.1 = 0 ∧ 0 < gapy e p.2 ∧
                    ri.rmin ≤ gapy e p.2 ∧ gapy e p.2 ≤ ri.rmax ∨
                    gapy e p.2 = 0 ∧ 0 < gapx e p.1 ∧
                    ri.rmin ≤ gapx e p.1 ∧ gapx e p.1 ≤ ri.rmax := by
                  simpa [hgx, hgy] using hok
                rcases hok2 with ⟨h1, h2, h3, h4⟩ | ⟨h1, h2, h3, h4⟩
                · exact Or.inl ⟨h1, by omega, h3, h4⟩
                · exact Or.inr ⟨h1, by omega, h3, h4⟩
              · rw [hrtv] at hok
                have hok2 : (gapx e p.1 + gapy e p.2) % 2 = 0 ∧
                    ri.rmin ≤ (|gapx e p.1 - gapy e p.2| + |gapx e p.1 + gapy e p.2|) / 2 ∧
                    (|gapx e p.1 - gapy e p.2| + |gapx e p.1 + gapy e p.2|) / 2 ≤ ri.rmax := by
                  simpa [hgx, hgy] using hok
                obtain ⟨hpar, hlo, hhi⟩ := hok2
                rw [diag_dist_eq _ _ hgx0 hgy0] at hlo hhi
                exact ⟨hpar, hlo, hhi⟩
              · exact absurd hrtv hrt
          · rw [if_neg hok] at hsome
            exact absurd hsome (by simp)
      · rintro ⟨hb, hnf, hcv⟩
        obtain ⟨hb1, hb2, hb3, hb4⟩ := hb
        have hbound : gapx e p.1 ≤ ri.rmax ∧ gapy e p.2 ≤ ri.rmax := by
          unfold claimValid at hcv
          rcases hrtv : ri.rtype with _ | _ | _ | _ | _
          · rw [hrtv] at hcv
            have h2 : ri.rmin ≤ max (gapx e p.1) (gapy e p.2) ∧
                max (gapx e p.1) (gapy e p.2) ≤ ri.rmax := by simpa using hcv
            rw [max_le_iff] at h2
            exact ⟨h2.2.1, h2.2.2⟩
          · rw [hrtv] at hcv
            have h2 : ri.rmin ≤ gapx e p.1 + gapy e p.2 ∧
                gapx e p.1 + gapy e p.2 ≤ ri.rmax := by simpa using hcv
            omega
          · rw [hrtv] at hcv
            have h2 : (gapx e p.1 = 0 ∧ gapy e p.2 ≠ 0 ∧
                ri.rmin ≤ gapy e p.2 ∧ gapy e p.2 ≤ ri.rmax) ∨
                (gapy e p.2 = 0 ∧ gapx e p.1 ≠ 0 ∧
                ri.rmin ≤ gapx e p.1 ∧ gapx e p.1 ≤ ri.rmax) := by simpa using hcv
            rcases h2 with ⟨h1, _, _, h4⟩ | ⟨h1, _, _, h4⟩ <;> omega
          · rw [hrtv] at hcv
            have h2 : (gapx e p.1 + gapy e p.2) % 2 = 0 ∧
                ri.rmin ≤ max (gapx e p.1) (gapy e p.2) ∧
                max (gapx e p.1) (gapy e p.2) ≤ ri.rmax := by simpa using hcv
            have h3 := h2.2.2
            rw [max_le_iff] at h3
            exact h3
          · exact absurd hrtv hrt
        obtain ⟨hgxr, hgyr⟩ := hbound
        have hx : e.x - p.1 ≤ ri.rmax ∧ p.1 - (e.x + dimW e - 1) ≤ ri.rmax ∧
            0 ≤ ri.rmax := max_gap_le hgxr
        have hy : e.y - p.2 ≤ ri.rmax ∧ p.2 - (e.y + dimH e - 1) ≤ ri.rmax ∧
            0 ≤ ri.rmax := max_gap_le hgyr
        rw [List.mem_flatMap]
        refine ⟨p.1, ?_, ?_⟩
        · rw [mem_intRange, max_le_iff, Int.lt_add_one_iff, le_min_iff]
          refine ⟨⟨hb1, by omega⟩, hb2, by omega⟩
        · rw [List.mem_filterMap]
          refine ⟨p.2, ?_, ?_⟩
          · rw [mem_intRange, max_le_iff, Int.lt_add_one_iff, le_min_iff]
            refine ⟨⟨hb3, by omega⟩, hb4, by omega⟩
          · unfold inFootprint at hnf
            rw [if_neg hnf]
            have hok : shapeOkB ri.rtype ri.rmin ri.rmax
                (gapAt e.x (dimW e) p.1) (gapAt e.y (dimH e) p.2) = true := by
              unfold claimValid at hcv
              unfold shapeOkB
              rcases hrtv : ri.rtype with _ | _ | _ | _ | _
              · rw [hrtv] at hcv
                simp only [hgx, hgy, decide_eq_true_eq]
                simpa using hcv
              · rw [hrtv] at hcv
                simp only [hgx, hgy, decide_eq_true_eq]
                simpa using hcv
              · rw [hrtv] at hcv
                have h2 : (gapx e p.1 = 0 ∧ gapy e p.2 ≠ 0 ∧
                    ri.rmin ≤ gapy e p.2 ∧ gapy e p.2 ≤ ri.rmax) ∨
                    (gapy e p.2 = 0 ∧ gapx e p.1 ≠ 0 ∧
                    ri.rmin ≤ gapx e p.1 ∧ gapx e p.1 ≤ ri.rmax) := by simpa using hcv
                simp only [hgx, hgy, decide_eq_true_eq]
                rcases h2 with ⟨h1, h2b, h3, h4⟩ | ⟨h1, h2b, h3, h4⟩
                · exact Or.inl ⟨h1, by omega, h3, h4⟩
                · exact Or.inr ⟨h1, by omega, h3, h4⟩
              · rw [hrtv] at hcv
                have h2 : (gapx e p.1 + gapy e p.2) % 2 = 0 ∧
                    ri.rmin ≤ max (gapx e p.1) (gapy e p.2) ∧
                    max (gapx e p.1) (gapy e p.2) ≤ ri.rmax := by simpa using hcv
                simp only [hgx, hgy, decide_eq_true_eq]
                rw [diag_dist_eq _ _ hgx0 hgy0]
                exact h2
              · exact absurd hrtv hrt
            rw [if_pos hok]

/-- C3: for every placed entity (footprint after the orientation swap)
and shape, `calc_range_positions` returns exactly the in-bounds cells
outside the footprint whose nearest-edge distance, measured by the
shape's distance function over the axis gaps (max for chebyshev, sum
for manhattan, the nonzero axis gap with the other zero for line, the
max under even gap-sum parity for diagonal — which requires a 1×1
entity), lies in `[Min, Max]`; knight requires a 1×1 entity with
`Min = Max = 1` and returns exactly the in-bounds knight-offset cells. -/
theorem calc_range_positions_spec (m : GameMap) (e : GameObject) (ri : RangeInfo)
    (p : Int × Int) (hw : 1 ≤ dimW e) (hh : 1 ≤ dimH e)
    (hdiag : ri.rtype = RType.diag → dimW e = 1 ∧ dimH e = 1)
    (hkn : ri.rtype = RType.knight →
      dimW e = 1 ∧ dimH e = 1 ∧ ri.rmin = 1 ∧ ri.rmax = 1) :
    ∃ l, calc_range_positions m e ri = .ok l ∧
      (p ∈ l ↔ inB m p.1 p.2 ∧ ¬ inFootprint e p ∧ claimValid e ri p) :=
  calc_range_mem m e ri p hw hh hdiag hkn

/-- A 2×2 building anchored at (1,1), as in the spec's manhattan
boundary scenario. -/
def entRW : GameObject :=
  { uid := 9, owner_id := 1, x := 1, y := 1, width := 2, height := 2,
    vertical := false, hp := 5, skills := [], buffs := [] }

/-- Manhattan range `{Min 1, Max 3}`. -/
def riRW : RangeInfo := ⟨RType.plus, 1, 3⟩

theorem calc_range_positions_spec_witness :
    ∃ l, calc_range_positions (mkGameMap 6 6) entRW riRW = .ok l ∧
      ((4, 1) ∈ l ↔ inB (mkGameMap 6 6) (4, 1).1 (4, 1).2 ∧
        ¬ inFootprint entRW (4, 1) ∧ claimValid entRW riRW (4, 1)) :=
  calc_range_positions_spec (mkGameMap 6 6) entRW riRW (4, 1)
    (by decide) (by decide) (by decide) (by decide)

/-! ### Obstacle-aware empty-position search (`calc_range_empty_positions`) -/

/-- The adjacency step set of each shape, in source order
(4-neighborhood for manhattan, 8-neighborhood for chebyshev,
diagonal-only for diagonal, knight offsets for knight, unit axis steps
for the line ray casts). -/
def stepSet (rt : RType) : List (Int × Int) :=
  match rt with
  | RType.plus => [(1, 0), (-1, 0), (0, 1), (0, -1)]
  | RType.star => [(1, 0), (-1, 0), (0, 1), (0, -1), (1, 1), (1, -1), (-1, 1), (-1, -1)]
  | RType.diag => [(1, 1), (1, -1), (-1, 1), (-1, -1)]
  | RType.knight => [(2, 1), (2, -1), (-2, 1), (-2, -1), (1, 2), (1, -2), (-1, 2), (-1, -2)]
  | RType.line => [(1, 0), (-1, 0), (0, 1), (0, -1)]

/-- One ray cast of the line branch: walk distances `d, d+1, …` along a
fixed direction, stopping at the first out-of-bounds or occupied cell,
collecting the empty cells passed. -/
def rayGo (m : GameMap) (ex ey dx dy : Int) : Nat → Int → List (Int × Int)
  | 0, _ => []
  | fuel + 1, d =>
    if m.oob (ex + dx * d) (ey + dy * d) then []
    else if ¬ (m.getUid (ex + dx * d) (ey + dy * d) = none) then []
    else (ex + dx * d, ey + dy * d) :: rayGo m ex ey dx dy fuel (d + 1)

/-- A full ray cast: distances `1 … Max`. -/
def rayCells (m : GameMap) (ex ey dx dy rmax : Int) : List (Int × Int) :=
  rayGo m ex ey dx dy rmax.toNat 1

/-- One neighbor inspection of the breadth-first search: push the
neighbor `c + s` (at distance `d+1`) and mark it visited iff it is in
bounds, unvisited, and empty. -/
def pushf (m : GameMap) (c : Int × Int) (d : Nat)
    (qv : List ((Int × Int) × Nat) × List (Int × Int)) (s : Int × Int) :
    List ((Int × Int) × Nat) × List (Int × Int) :=
  if ¬ m.oob (c.1 + s.1) (c.2 + s.2) ∧ (c.1 + s.1, c.2 + s.2) ∉ qv.2 ∧
      m.getUid (c.1 + s.1) (c.2 + s.2) = none then
    (qv.1 ++ [((c.1 + s.1, c.2 + s.2), d + 1)], qv.2 ++ [(c.1 + s.1, c.2 + s.2)])
  else qv

/-- The neighbor-expansion loop of the breadth-first search. -/
def bfsPush (m : GameMap) (steps : List (Int × Int)) (c : Int × Int) (d : Nat)
    (q : List ((Int × Int) × Nat)) (visited : List (Int × Int)) :
    List ((Int × Int) × Nat) × List (Int × Int) :=
  steps.foldl (pushf m c d) (q, visited)

/-- The breadth-first search of `calc_range_empty_positions` when
obstacles block: pop `(cell, dist)`, skip it entirely when
`dist > Max`, append the cell to the result when it is empty and
`dist ≥ 1`, and expand its neighbors.  Fuel only bounds the number of
loop iterations (each pushed cell is fresh, so the Python loop performs
finitely many). -/
def bfsGo (m : GameMap) (steps : List (Int × Int)) (rmax : Int) :
    Nat → List ((Int × Int) × Nat) → List (Int × Int) → List (Int × Int) →
    List (Int × Int)
  | 0, _, _, acc => acc
  | _ + 1, [], _, acc => acc
  | fuel + 1, (c, d) :: q, visited, acc =>
    if (d : Int) > rmax then bfsGo m steps rmax fuel q visited acc
    else
      bfsGo m steps rmax fuel
        (bfsPush m steps c d q visited).1
        (bfsPush m steps c d q visited).2
        (if m.getUid c.1 c.2 = none ∧ 1 ≤ d then acc ++ [c] else acc)

/-- `GameMap.calc_range_empty_positions`.  With `ignore_obstacles` the
result is the unoccupied subset of `calc_range_positions`.  When
obstacles block, the method requires `Min = 1` and a 1×1 entity (raw
size, the orientation flag is not consulted), handles the line shape by
four independent ray casts in source order, requires `Max = 1` for
knight, and otherwise runs a breadth-first search from the entity's cell
over the shape's step set.  (The `raise` for an unknown shape string is
unreachable over the closed `RType`.) -/
def calc_range_empty_positions (m : GameMap) (e : GameObject) (ri : RangeInfo)
    (ignore_obstacles : Bool) : Except String (List (Int × Int)) :=
  if ignore_obstacles then
    match calc_range_positions m e ri with
    | .error e2 => .error e2
    | .ok l => .ok (l.filter (fun q => decide (m.getUid q.1 q.2 = none)))
  else
    if ri.rmin ≠ 1 ∨ e.width ≠ 1 ∨ e.height ≠ 1 then
      .error "When ignore_obstacles is False, range must have Min=1 and entity size must be 1*1"
    else if ri.rtype = RType.line then
      .ok (rayCells m e.x e.y 1 0 ri.rmax ++ rayCells m e.x e.y (-1) 0 ri.rmax ++
        rayCells m e.x e.y 0 1 ri.rmax ++ rayCells m e.x e.y 0 (-1) ri.rmax)
    else if ri.rtype = RType.knight ∧ ri.rmax ≠ 1 then
      .error "Range type h only supports Max=1"
    else
      .ok (bfsGo m (stepSet ri.rtype) ri.rmax ((m.width * m.height).toNat + 2)
        [((e.x, e.y), 0)] [(e.x, e.y)] [])

/-- Reachability from the entity's cell in `n` steps of a step set,
never passing through an occupied or out-of-bounds cell (the start cell
itself, which holds the entity, is exempt). -/
inductive ReachIn (m : GameMap) (steps : List (Int × Int)) (start : Int × Int) :
    (Int × Int) → Nat → Prop where
  | refl : ReachIn m steps start start 0
  | step {p : Int × Int} {n : Nat} {s : Int × Int}
      (hp : ReachIn m steps start p n) (hs : s ∈ steps)
      (hoob : ¬ m.oob (p.1 + s.1) (p.2 + s.2))
      (hempty : m.getUid (p.1 + s.1) (p.2 + s.2) = none) :
      ReachIn m steps start (p.1 + s.1, p.2 + s.2) (n + 1)

/-- What the obstacle-aware search is allowed to return: an empty cell,
distinct from the start cell, reachable within `rmax` steps. -/
def BfsProp (m : GameMap) (steps : List (Int × Int)) (start : Int × Int)
    (rmax : Int) (c : Int × Int) : Prop :=
  m.getUid c.1 c.2 = none ∧ c ≠ start ∧
    ∃ n : Nat, (n : Int) ≤ rmax ∧ ReachIn m steps start c n

/-- Queue invariant of the breadth-first search: every queued cell is
reachable at its recorded distance, and every cell queued at distance
≥ 1 is a fresh, empty cell distinct from the start. -/
def QInv (m : GameMap) (steps : List (Int × Int)) (start : Int × Int)
    (q : List ((Int × Int) × Nat)) : Prop :=
  ∀ cd ∈ q, ReachIn m steps start cd.1 cd.2 ∧
    (1 ≤ cd.2 → cd.1 ≠ start ∧ m.getUid cd.1.1 cd.1.2 = none)

theorem bfsPush_sound (m : GameMap) (steps0 : List (Int × Int)) (start : Int × Int)
    (c : Int × Int) (d : Nat) (hc : ReachIn m steps0 start c d) :
    ∀ (steps : List (Int × Int)), (∀ s ∈ steps, s ∈ steps0) →
    ∀ (q : List ((Int × Int) × Nat)) (visited : List (Int × Int)),
      QInv m steps0 start q → start ∈ visited →
      QInv m steps0 start (bfsPush m steps c d q visited).1 ∧
        start ∈ (bfsPush m steps c d q visited).2 := by
  intro steps
  induction steps with
  | nil =>
    intro _ q visited hq hv
    exact ⟨hq, hv⟩
  | cons s ss ih =>
    intro hsub q visited hq hv
    have hstep : bfsPush m (s :: ss) c d q visited =
        ss.foldl (pushf m c d) (pushf m c d (q, visited) s) := rfl
    rw [hstep]
    have hs0 : s ∈ steps0 := hsub s (List.mem_cons_self s ss)
    have hsub2 : ∀ s2 ∈ ss, s2 ∈ steps0 := fun s2 hs2 => hsub s2 (List.mem_cons_of_mem s hs2)
    by_cases hcond : ¬ m.oob (c.1 + s.1) (c.2 + s.2) ∧ (c.1 + s.1, c.2 + s.2) ∉ visited ∧
        m.getUid (c.1 + s.1) (c.2 + s.2) = none
    · have hpf : pushf m c d (q, visited) s =
          (q ++ [((c.1 + s.1, c.2 + s.2), d + 1)], visited ++ [(c.1 + s.1, c.2 + s.2)]) := by
        unfold pushf
        rw [if_pos hcond]
      rw [hpf]
      have hq2 : QInv m steps0 start (q ++ [((c.1 + s.1, c.2 + s.2), d + 1)]) := by
        intro cd hcd
        rcases List.mem_append.1 hcd with hl | hr
        · exact hq cd hl
        · have hcd2 : cd = ((c.1 + s.1, c.2 + s.2), d + 1) := by simpa using hr
          rw [hcd2]
          refine ⟨ReachIn.step hc hs0 hcond.1 hcond.2.2, ?_⟩
          intro _
          refine ⟨?_, hcond.2.2⟩
          intro hcon
          have hcon2 : (c.1 + s.1, c.2 + s.2) = start := hcon
          exact hcond.2.1 (by rw [hcon2]; exact hv)
      have hv2 : start ∈ visited ++ [(c.1 + s.1, c.2 + s.2)] :=
        List.mem_append.2 (Or.inl hv)
      exact ih hsub2 _ _ hq2 hv2
    · have hpf : pushf m c d (q, visited) s = (q, visited) := by
        unfold pushf
        rw [if_neg hcond]
      rw [hpf]
      exact ih hsub2 q visited hq hv

theorem bfsGo_sound (m : GameMap) (steps : List (Int × Int)) (start : Int × Int)
    (rmax : Int) :
    ∀ (fuel : Nat) (q : List ((Int × Int) × Nat)) (visited : List (Int × Int))
      (acc : List (Int × Int)),
      QInv m steps start q → start ∈ visited →
      (∀ c2 ∈ acc, BfsProp m steps start rmax c2) →
      ∀ c2 ∈ bfsGo m steps rmax fuel q visited acc, BfsProp m steps start rmax c2 := by
  intro fuel
  induction fuel with
  | zero =>
    intro q visited acc _ _ hacc c2 hc2
    exact hacc c2 hc2
  | succ fuel ih =>
    intro q visited acc hq hv hacc c2 hc2
    cases q with
    | nil => exact hacc c2 hc2
    | cons cd q2 =>
      obtain ⟨c, d⟩ := cd
      rw [bfsGo] at hc2
      by_cases hgt : (d : Int) > rmax
      · rw [if_pos hgt] at hc2
        exact ih q2 visited acc (fun cd2 hcd2 => hq cd2 (List.mem_cons_of_mem _ hcd2))
          hv hacc c2 hc2
      · rw [if_neg hgt] at hc2
        have hhead := hq (c, d) (List.mem_cons_self _ _)
        have hq2 : QInv m steps start q2 :=
          fun cd2 hcd2 => hq cd2 (List.mem_cons_of_mem _ hcd2)
        have hpush := bfsPush_sound m steps start c d hhead.1 steps
          (fun s2 hs2 => hs2) q2 visited hq2 hv
        have hacc2 : ∀ c3 ∈ (if m.getUid c.1 c.2 = none ∧ 1 ≤ d then acc ++ [c] else acc),
            BfsProp m steps start rmax c3 := by
          by_cases hadd : m.getUid c.1 c.2 = none ∧ 1 ≤ d
          · rw [if_pos hadd]
            intro c3 hc3
            rcases List.mem_append.1 hc3 with hl | hr
            · exact hacc c3 hl
            · have hc3e : c3 = c := by simpa using hr
              rw [hc3e]
              exact ⟨hadd.1, (hhead.2 hadd.2).1, d, by omega, hhead.1⟩
          · rw [if_neg hadd]
            exact hacc
        exact ih _ _ _ hpush.1 hpush.2 hacc2 c2 hc2

theorem reach_inB {m : GameMap} {steps : List (Int × Int)} {start c : Int × Int}
    {n : Nat} (h : ReachIn m steps start c n) : c = start ∨ inB m c.1 c.2 := by
  cases h with
  | refl => exact Or.inl rfl
  | step hp hs hoob hempty =>
    rename_i p n2 s
    exact Or.inr ((not_oob_iff m (p.1 + s.1) (p.2 + s.2)).1 hoob)

theorem reach_bound_star {m : GameMap} {ex ey : Int} {c : Int × Int} {n : Nat}
    (h : ReachIn m (stepSet RType.star) (ex, ey) c n) :
    (c.1 - ex).natAbs ≤ n ∧ (c.2 - ey).natAbs ≤ n := by
  induction h with
  | refl =>
    constructor
    · show (ex - ex).natAbs ≤ 0
      omega
    · show (ey - ey).natAbs ≤ 0
      omega
  | step hp hs hoob hempty ih =>
    rename_i p n2 s
    have hs2 : ((s.1, s.2) : Int × Int) ∈ stepSet RType.star := hs
    simp only [stepSet, List.mem_cons, Prod.mk.injEq, List.not_mem_nil, or_false] at hs2
    obtain ⟨ih1, ih2⟩ := ih
    constructor
    · show (p.1 + s.1 - ex).natAbs ≤ n2 + 1
      omega
    · show (p.2 + s.2 - ey).natAbs ≤ n2 + 1
      omega

theorem reach_bound_plus {m : GameMap} {ex ey : Int} {c : Int × Int} {n : Nat}
    (h : ReachIn m (stepSet RType.plus) (ex, ey) c n) :
    (c.1 - ex).natAbs + (c.2 - ey).natAbs ≤ n := by
  induction h with
  | refl =>
    show (ex - ex).natAbs + (ey - ey).natAbs ≤ 0
    omega
  | step hp hs hoob hempty ih =>
    rename_i p n2 s
    have hs2 : ((s.1, s.2) : Int × Int) ∈ stepSet RType.plus := hs
    simp only [stepSet, List.mem_cons, Prod.mk.injEq, List.not_mem_nil, or_false] at hs2
    show (p.1 + s.1 - ex).natAbs + (p.2 + s.2 - ey).natAbs ≤ n2 + 1
    omega

theorem reach_bound_diag {m : GameMap} {ex ey : Int} {c : Int × Int} {n : Nat}
    (h : ReachIn m (stepSet RType.diag) (ex, ey) c n) :
    (c.1 - ex).natAbs ≤ n ∧ (c.2 - ey).natAbs ≤ n ∧
      (c.1 - ex + (c.2 - ey)) % 2 = 0 := by
  induction h with
  | refl =>
    refine ⟨?_, ?_, ?_⟩
    · show (ex - ex).natAbs ≤ 0
      omega
    · show (ey - ey).natAbs ≤ 0
      omega
    · show (ex - ex + (ey - ey)) % 2 = 0
      omega
  | step hp hs hoob hempty ih =>
    rename_i p n2 s
    have hs2 : ((s.1, s.2) : Int × Int) ∈ stepSet RType.diag := hs
    simp only [stepSet, List.mem_cons, Prod.mk.injEq, List.not_mem_nil, or_false] at hs2
    obtain ⟨ih1, ih2, ih3⟩ := ih
    refine ⟨?_, ?_, ?_⟩
    · show (p.1 + s.1 - ex).natAbs ≤ n2 + 1
      omega
    · show (p.2 + s.2 - ey).natAbs ≤ n2 + 1
      omega
    · show (p.1 + s.1 - ex + (p.2 + s.2 - ey)) % 2 = 0
      omega

theorem reach_zero {m : GameMap} {steps : List (Int × Int)} {start c : Int × Int}
    (h : ReachIn m steps start c 0) : c = start := by
  cases h
  rfl

theorem reach_knight {m : GameMap} {ex ey : Int} {c : Int × Int} {n : Nat}
    (h : ReachIn m (stepSet RType.knight) (ex, ey) c n) (hn : n ≤ 1) :
    c = (ex, ey) ∨ c ∈ knight_moves ex ey := by
  cases h with
  | refl => exact Or.inl rfl
  | step hp hs hoob hempty =>
    rename_i p n2 s
    have hn2 : n2 = 0 := by omega
    subst hn2
    have hp0 : p = (ex, ey) := reach_zero hp
    subst hp0
    refine Or.inr ?_
    have hs2 : ((s.1, s.2) : Int × Int) ∈ stepSet RType.knight := hs
    simp only [stepSet, List.mem_cons, Prod.mk.injEq, List.not_mem_nil, or_false] at hs2
    simp only [knight_moves, List.mem_cons, Prod.mk.injEq, List.not_mem_nil, or_false]
    rcases hs2 with ⟨ha, hb⟩ | ⟨ha, hb⟩ | ⟨ha, hb⟩ | ⟨ha, hb⟩ |
      ⟨ha, hb⟩ | ⟨ha, hb⟩ | ⟨ha, hb⟩ | ⟨ha, hb⟩
    · exact Or.inr (Or.inr (Or.inr (Or.inl ⟨by omega, by omega⟩)))
    · exact Or.inr (Or.inr (Or.inl ⟨by omega, by omega⟩))
    · exact Or.inr (Or.inl ⟨by omega, by omega⟩)
    · exact Or.inl ⟨by omega, by omega⟩
    · exact Or.inr (Or.inr (Or.inr (Or.inr (Or.inr (Or.inr (Or.inr ⟨by omega, by omega⟩))))))
    · exact Or.inr (Or.inr (Or.inr (Or.inr (Or.inr (Or.inr (Or.inl ⟨by omega, by omega⟩))))))
    · exact Or.inr (Or.inr (Or.inr (Or.inr (Or.inr (Or.inl ⟨by omega, by omega⟩)))))
    · exact Or.inr (Or.inr (Or.inr (Or.inr (Or.inl ⟨by omega, by omega⟩))))

theorem gapx_one (e : GameObject) (hw : dimW e = 1) (px : Int) :
    gapx e px = ((px - e.x).natAbs : Int) := by
  unfold gapx
  rw [hw]
  rcases max_cases (e.x - px) (px - (e.x + 1 - 1)) with ⟨h1, h2⟩ | ⟨h1, h2⟩ <;> rw [h1]
  · rcases max_cases 0 (e.x - px) with ⟨h3, h4⟩ | ⟨h3, h4⟩ <;> rw [h3] <;> omega
  · rcases max_cases 0 (px - (e.x + 1 - 1)) with ⟨h3, h4⟩ | ⟨h3, h4⟩ <;> rw [h3] <;> omega

theorem gapy_one (e : GameObject) (hh : dimH e = 1) (py : Int) :
    gapy e py = ((py - e.y).natAbs : Int) := by
  unfold gapy
  rw [hh]
  rcases max_cases (e.y - py) (py - (e.y + 1 - 1)) with ⟨h1, h2⟩ | ⟨h1, h2⟩ <;> rw [h1]
  · rcases max_cases 0 (e.y - py) with ⟨h3, h4⟩ | ⟨h3, h4⟩ <;> rw [h3] <;> omega
  · rcases max_cases 0 (py - (e.y + 1 - 1)) with ⟨h3, h4⟩ | ⟨h3, h4⟩ <;> rw [h3] <;> omega

theorem inFootprint_one (e : GameObject) (h1 : dimW e = 1) (h2 : dimH e = 1)
    (p : Int × Int) : inFootprint e p ↔ p = (e.x, e.y) := by
  unfold inFootprint
  rw [h1, h2, Prod.ext_iff]
  constructor
  · intro h3
    refine ⟨?_, ?_⟩
    · show p.1 = e.x
      omega
    · show p.2 = e.y
      omega
  · intro h3
    have h31 : p.1 = e.x := h3.1
    have h32 : p.2 = e.y := h3.2
    refine ⟨?_, ?_, ?_, ?_⟩ <;> omega

theorem bfsProp_claimValid (m : GameMap) (e : GameObject) (ri : RangeInfo)
    (hdw : dimW e = 1) (hdh : dimH e = 1) (hmin : ri.rmin = 1)
    (hkn : ri.rtype = RType.knight → ri.rmax = 1)
    (hline : ri.rtype ≠ RType.line) (c : Int × Int)
    (hne : c ≠ (e.x, e.y)) (n : Nat) (hn : (n : Int) ≤ ri.rmax)
    (hr : ReachIn m (stepSet ri.rtype) (e.x, e.y) c n) :
    claimValid e ri c := by
  have hne2 : c.1 ≠ e.x ∨ c.2 ≠ e.y := by
    by_contra hcon
    push_neg at hcon
    apply hne
    rw [Prod.ext_iff]
    exact ⟨hcon.1, hcon.2⟩
  cases hrtv : ri.rtype with
  | star =>
    rw [hrtv] at hr
    obtain ⟨hb1, hb2⟩ := reach_bound_star hr
    unfold claimValid
    rw [hrtv]
    show ri.rmin ≤ max (gapx e c.1) (gapy e c.2) ∧ max (gapx e c.1) (gapy e c.2) ≤ ri.rmax
    rw [gapx_one e hdw, gapy_one e hdh, hmin]
    constructor
    · rw [le_max_iff]
      rcases hne2 with h | h
      · exact Or.inl (by omega)
      · exact Or.inr (by omega)
    · rw [max_le_iff]
      exact ⟨by omega, by omega⟩
  | plus =>
    rw [hrtv] at hr
    have hb := reach_bound_plus hr
    unfold claimValid
    rw [hrtv]
    show ri.rmin ≤ gapx e c.1 + gapy e c.2 ∧ gapx e c.1 + gapy e c.2 ≤ ri.rmax
    rw [gapx_one e hdw, gapy_one e hdh, hmin]
    exact ⟨by omega, by omega⟩
  | line => exact absurd hrtv hline
  | diag =>
    rw [hrtv] at hr
    obtain ⟨hb1, hb2, hb3⟩ := reach_bound_diag hr
    unfold claimValid
    rw [hrtv]
    show (gapx e c.1 + gapy e c.2) % 2 = 0 ∧
      ri.rmin ≤ max (gapx e c.1) (gapy e c.2) ∧
      max (gapx e c.1) (gapy e c.2) ≤ ri.rmax
    rw [gapx_one e hdw, gapy_one e hdh, hmin]
    refine ⟨by omega, ?_, ?_⟩
    · rw [le_max_iff]
      rcases hne2 with h | h
      · exact Or.inl (by omega)
      · exact Or.inr (by omega)
    · rw [max_le_iff]
      exact ⟨by omega, by omega⟩
  | knight =>
    rw [hrtv] at hr
    have hmax := hkn hrtv
    have hn1 : n ≤ 1 := by
      rw [hmax] at hn
      omega
    unfold claimValid
    rw [hrtv]
    show c ∈ knight_moves e.x e.y
    rcases reach_knight hr hn1 with h | h
    · exact absurd h hne
    · exact h

theorem rayGo_sound (m : GameMap) (steps : List (Int × Int)) (ex ey dx dy : Int)
    (hs : (dx, dy) ∈ steps) :
    ∀ (fuel n : Nat),
      ReachIn m steps (ex, ey) (ex + dx * n, ey + dy * n) n →
      ∀ c ∈ rayGo m ex ey dx dy fuel ((n : Int) + 1),
        ∃ k : Nat, n + 1 ≤ k ∧ k ≤ n + fuel ∧ c.1 = ex + dx * k ∧ c.2 = ey + dy * k ∧
          m.getUid c.1 c.2 = none ∧ ReachIn m steps (ex, ey) c k := by
  intro fuel
  induction fuel with
  | zero =>
    intro n _ c hc
    exact absurd hc (List.not_mem_nil c)
  | succ fuel ih =>
    intro n hreach c hc
    simp only [rayGo] at hc
    by_cases hoob : m.oob (ex + dx * ((n : Int) + 1)) (ey + dy * ((n : Int) + 1))
    · rw [if_pos hoob] at hc
      exact absurd hc (List.not_mem_nil c)
    · rw [if_neg hoob] at hc
      by_cases hocc : m.getUid (ex + dx * ((n : Int) + 1)) (ey + dy * ((n : Int) + 1)) = none
      · rw [if_neg (not_not_intro hocc)] at hc
        have hoob2 : ¬ m.oob (ex + dx * (n : Int) + dx) (ey + dy * (n : Int) + dy) := by
          have he1 : ex + dx * (n : Int) + dx = ex + dx * ((n : Int) + 1) := by ring
          have he2 : ey + dy * (n : Int) + dy = ey + dy * ((n : Int) + 1) := by ring
          rw [he1, he2]
          exact hoob
        have hocc2 : m.getUid (ex + dx * (n : Int) + dx) (ey + dy * (n : Int) + dy) = none := by
          have he1 : ex + dx * (n : Int) + dx = ex + dx * ((n : Int) + 1) := by ring
          have he2 : ey + dy * (n : Int) + dy = ey + dy * ((n : Int) + 1) := by ring
          rw [he1, he2]
          exact hocc
        have hstep := ReachIn.step hreach hs hoob2 hocc2
        have hpe : (((ex + dx * (n : Int), ey + dy * (n : Int)) : Int × Int).1 +
              ((dx, dy) : Int × Int).1,
            ((ex + dx * (n : Int), ey + dy * (n : Int)) : Int × Int).2 +
              ((dx, dy) : Int × Int).2) =
            ((ex + dx * ((n : Int) + 1), ey + dy * ((n : Int) + 1)) : Int × Int) := by
          rw [Prod.mk.injEq]
          constructor
          · show ex + dx * (n : Int) + dx = ex + dx * ((n : Int) + 1)
            ring
          · show ey + dy * (n : Int) + dy = ey + dy * ((n : Int) + 1)
            ring
        rw [hpe] at hstep
        rcases List.mem_cons.1 hc with hceq | hctail
        · refine ⟨n + 1, le_refl _, by omega, ?_, ?_, ?_, ?_⟩
          · rw [hceq]
            show ex + dx * ((n : Int) + 1) = ex + dx * ((n + 1 : Nat) : Int)
            push_cast
            try ring
          · rw [hceq]
            show ey + dy * ((n : Int) + 1) = ey + dy * ((n + 1 : Nat) : Int)
            push_cast
            try ring
          · rw [hceq]
            exact hocc
          · rw [hceq]
            exact hstep
        · have hcast : ((n : Int) + 1) + 1 = (((n + 1 : Nat)) : Int) + 1 := by
            push_cast
            try ring
          rw [hcast] at hctail
          have hcast1 : (((n + 1 : Nat)) : Int) = (n : Int) + 1 := by
            push_cast
            try ring
          have hreach2 : ReachIn m steps (ex, ey)
              (ex + dx * ((n + 1 : Nat) : Int), ey + dy * ((n + 1 : Nat) : Int)) (n + 1) := by
            rw [hcast1]
            exact hstep
          obtain ⟨k, hk1, hk2, h3, h4, h5, h6⟩ := ih (n + 1) hreach2 c hctail
          exact ⟨k, by omega, by omega, h3, h4, h5, h6⟩
      · rw [if_pos hocc] at hc
        exact absurd hc (List.not_mem_nil c)

theorem rayCells_sound (m : GameMap) (steps : List (Int × Int)) (ex ey dx dy rmax : Int)
    (hs : (dx, dy) ∈ steps) :
    ∀ c ∈ rayCells m ex ey dx dy rmax,
      ∃ k : Nat, 1 ≤ k ∧ (k : Int) ≤ rmax ∧ c.1 = ex + dx * k ∧ c.2 = ey + dy * k ∧
        m.getUid c.1 c.2 = none ∧ ReachIn m steps (ex, ey) c k := by
  intro c hc
  have h0 : ReachIn m steps (ex, ey)
      (ex + dx * ((0 : Nat) : Int), ey + dy * ((0 : Nat) : Int)) 0 := by
    have he : ((ex + dx * ((0 : Nat) : Int), ey + dy * ((0 : Nat) : Int)) : Int × Int) =
        ((ex, ey) : Int × Int) := by
      rw [Prod.mk.injEq]
      constructor
      · show ex + dx * ((0 : Nat) : Int) = ex
        push_cast
        try ring
      · show ey + dy * ((0 : Nat) : Int) = ey
        push_cast
        try ring
    rw [he]
    exact ReachIn.refl
  have hc2 : c ∈ rayGo m ex ey dx dy rmax.toNat (((0 : Nat) : Int) + 1) := by
    have he : (((0 : Nat) : Int) + 1) = (1 : Int) := by
      push_cast
      try ring
    rw [he]
    exact hc
  obtain ⟨k, hk1, hk2, h3, h4, h5, h6⟩ :=
    rayGo_sound m steps ex ey dx dy hs rmax.toNat 0 h0 c hc2
  refine ⟨k, by omega, by omega, h3, h4, h5, h6⟩

theorem ray_claim (m : GameMap) (e : GameObject) (ri : RangeInfo)
    (hdw : dimW e = 1) (hdh : dimH e = 1) (hmin : ri.rmin = 1)
    (hrtv : ri.rtype = RType.line) (dx dy : Int)
    (hs : (dx, dy) ∈ stepSet RType.line) (c : Int × Int)
    (hc : c ∈ rayCells m e.x e.y dx dy ri.rmax) :
    m.getUid c.1 c.2 = none ∧
    (∃ n : Nat, (n : Int) ≤ ri.rmax ∧ ReachIn m (stepSet RType.line) (e.x, e.y) c n) ∧
    inB m c.1 c.2 ∧ ¬ inFootprint e c ∧ claimValid e ri c := by
  obtain ⟨k, hk1, hk2, hc1, hc2, hempty, hreach⟩ :=
    rayCells_sound m (stepSet RType.line) e.x e.y dx dy ri.rmax hs c hc
  have hs2 : ((dx, dy) : Int × Int) ∈ stepSet RType.line := hs
  simp only [stepSet, List.mem_cons, Prod.mk.injEq, List.not_mem_nil, or_false] at hs2
  rcases hs2 with ⟨h1, h2⟩ | ⟨h1, h2⟩ | ⟨h1, h2⟩ | ⟨h1, h2⟩
  all_goals
    subst h1
    subst h2
    refine ⟨hempty, ⟨k, hk2, hreach⟩, ?_, ?_, ?_⟩
    · rcases reach_inB hreach with h | h
      · exfalso
        have h3 : c.1 = e.x := congrArg Prod.fst h
        have h4 : c.2 = e.y := congrArg Prod.snd h
        omega
      · exact h
    · intro hf
      unfold inFootprint at hf
      rw [hdw, hdh] at hf
      omega
    · unfold claimValid
      rw [hrtv]
      show (gapx e c.1 = 0 ∧ gapy e c.2 ≠ 0 ∧ ri.rmin ≤ gapy e c.2 ∧ gapy e c.2 ≤ ri.rmax) ∨
        (gapy e c.2 = 0 ∧ gapx e c.1 ≠ 0 ∧ ri.rmin ≤ gapx e c.1 ∧ gapx e c.1 ≤ ri.rmax)
      rw [gapx_one e hdw, gapy_one e hdh, hmin]
      omega

theorem bfs_case (m : GameMap) (e : GameObject) (ri : RangeInfo)
    (hdw : dimW e = 1) (hdh : dimH e = 1) (hmin : ri.rmin = 1)
    (hline : ri.rtype ≠ RType.line)
    (hkn : ri.rtype = RType.knight → ri.rmax = 1)
    (l : List (Int × Int))
    (hl : bfsGo m (stepSet ri.rtype) ri.rmax ((m.width * m.height).toNat + 2)
        [((e.x, e.y), 0)] [(e.x, e.y)] [] = l) :
    (∀ c ∈ l, m.getUid c.1 c.2 = none ∧
      ∃ n : Nat, (n : Int) ≤ ri.rmax ∧ ReachIn m (stepSet ri.rtype) (e.x, e.y) c n) ∧
    (∃ li, calc_range_empty_positions m e ri true = .ok li ∧ ∀ c ∈ l, c ∈ li) := by
  have hQ : QInv m (stepSet ri.rtype) (e.x, e.y) [((e.x, e.y), 0)] := by
    intro cd hcd
    have hcd2 : cd = ((e.x, e.y), 0) := by simpa using hcd
    rw [hcd2]
    refine ⟨ReachIn.refl, ?_⟩
    intro h2
    have h3 : (1 : Nat) ≤ 0 := h2
    omega
  have hV : ((e.x, e.y) : Int × Int) ∈ [((e.x, e.y) : Int × Int)] :=
    List.mem_singleton.2 rfl
  have hA : ∀ c2 ∈ ([] : List (Int × Int)),
      BfsProp m (stepSet ri.rtype) (e.x, e.y) ri.rmax c2 :=
    fun c2 hc2 => absurd hc2 (List.not_mem_nil c2)
  have hsound := bfsGo_sound m (stepSet ri.rtype) (e.x, e.y) ri.rmax
    ((m.width * m.height).toNat + 2) [((e.x, e.y), 0)] [(e.x, e.y)] [] hQ hV hA
  rw [hl] at hsound
  constructor
  · intro c hc
    have hb := hsound c hc
    unfold BfsProp at hb
    exact ⟨hb.1, hb.2.2⟩
  · obtain ⟨lp, hlp, _⟩ := calc_range_mem m e ri (0, 0) (by omega) (by omega)
      (fun _ => ⟨hdw, hdh⟩) (fun h => ⟨hdw, hdh, hmin, hkn h⟩)
    refine ⟨lp.filter (fun q => decide (m.getUid q.1 q.2 = none)), ?_, ?_⟩
    · unfold calc_range_empty_positions
      rw [if_pos rfl, hlp]
    · intro c hc
      have hb := hsound c hc
      unfold BfsProp at hb
      obtain ⟨hempty, hne, n, hn, hr⟩ := hb
      obtain ⟨lp2, hlp2, hiff⟩ := calc_range_mem m e ri c (by omega) (by omega)
        (fun _ => ⟨hdw, hdh⟩) (fun h => ⟨hdw, hdh, hmin, hkn h⟩)
      rw [hlp] at hlp2
      have hle : lp = lp2 := Except.ok.inj hlp2
      rw [← hle] at hiff
      rw [List.mem_filter]
      refine ⟨hiff.2 ⟨?_, ?_, ?_⟩, decide_eq_true hempty⟩
      · rcases reach_inB hr with h | h
        · exact absurd h hne
        · exact h
      · intro hf
        exact hne ((inFootprint_one e hdw hdh c).1 hf)
      · exact bfsProp_claimValid m e ri hdw hdh hmin hkn hline c hne n hn hr

/-- **C4.** For a 1×1 entity and a shape with `Min = 1`, the
obstacle-aware `calc_range_empty_positions` (obstacles block) returns
only empty cells reachable from the entity's cell within `Max` steps of
the shape's adjacency step set without crossing an occupied or
out-of-bounds cell, and its result is a subset of the ignore-obstacles
result (the unoccupied subset of `calc_range_positions`) for the same
entity and shape. -/
theorem calc_range_empty_positions_spec (m : GameMap) (e : GameObject) (ri : RangeInfo)
    (l : List (Int × Int))
    (hok : calc_range_empty_positions m e ri false = .ok l) :
    (∀ c ∈ l, m.getUid c.1 c.2 = none ∧
      ∃ n : Nat, (n : Int) ≤ ri.rmax ∧ ReachIn m (stepSet ri.rtype) (e.x, e.y) c n) ∧
    (∃ li, calc_range_empty_positions m e ri true = .ok li ∧ ∀ c ∈ l, c ∈ li) := by
  unfold calc_range_empty_positions at hok
  rw [if_neg (by decide : ¬ ((false : Bool) = true))] at hok
  by_cases hg : ri.rmin ≠ 1 ∨ e.width ≠ 1 ∨ e.height ≠ 1
  · rw [if_pos hg] at hok
    cases hok
  · rw [if_neg hg] at hok
    push_neg at hg
    obtain ⟨hmin, hw1, hh1⟩ := hg
    have hdw : dimW e = 1 := by
      unfold dimW
      split <;> omega
    have hdh : dimH e = 1 := by
      unfold dimH
      split <;> omega
    by_cases hrt : ri.rtype = RType.line
    · rw [if_pos hrt] at hok
      injection hok with hok2
      constructor
      · intro c hc
        rw [← hok2] at hc
        have hc4 : c ∈ rayCells m e.x e.y 1 0 ri.rmax ∨
            c ∈ rayCells m e.x e.y (-1) 0 ri.rmax ∨
            c ∈ rayCells m e.x e.y 0 1 ri.rmax ∨
            c ∈ rayCells m e.x e.y 0 (-1) ri.rmax := by
          simp only [List.mem_append] at hc
          tauto
        rw [hrt]
        rcases hc4 with h | h | h | h
        all_goals
          have hr := ray_claim m e ri hdw hdh hmin hrt _ _ (by decide) c h
          exact ⟨hr.1, hr.2.1⟩
      · obtain ⟨lp, hlp, _⟩ := calc_range_mem m e ri (0, 0) (by omega) (by omega)
          (fun _ => ⟨hdw, hdh⟩) (fun h => absurd (hrt.symm.trans h) (by decide))
        refine ⟨lp.filter (fun q => decide (m.getUid q.1 q.2 = none)), ?_, ?_⟩
        · unfold calc_range_empty_positions
          rw [if_pos rfl, hlp]
        · intro c hc
          rw [← hok2] at hc
          have hc4 : c ∈ rayCells m e.x e.y 1 0 ri.rmax ∨
              c ∈ rayCells m e.x e.y (-1) 0 ri.rmax ∨
              c ∈ rayCells m e.x e.y 0 1 ri.rmax ∨
              c ∈ rayCells m e.x e.y 0 (-1) ri.rmax := by
            simp only [List.mem_append] at hc
            tauto
          have key : m.getUid c.1 c.2 = none ∧ inB m c.1 c.2 ∧ ¬ inFootprint e c ∧
              claimValid e ri c := by
            rcases hc4 with h | h | h | h
            all_goals
              have hr := ray_claim m e ri hdw hdh hmin hrt _ _ (by decide) c h
              exact ⟨hr.1, hr.2.2.1, hr.2.2.2.1, hr.2.2.2.2⟩
          obtain ⟨lp2, hlp2, hiff⟩ := calc_range_mem m e ri c (by omega) (by omega)
            (fun _ => ⟨hdw, hdh⟩) (fun h => absurd (hrt.symm.trans h) (by decide))
          rw [hlp] at hlp2
          have hle : lp = lp2 := Except.ok.inj hlp2
          rw [← hle] at hiff
          rw [List.mem_filter]
          exact ⟨hiff.2 ⟨key.2.1, key.2.2.1, key.2.2.2⟩, decide_eq_true key.1⟩
    · rw [if_neg hrt] at hok
      by_cases hkn2 : ri.rtype = RType.knight ∧ ri.rmax ≠ 1
      · rw [if_pos hkn2] at hok
        cases hok
      · rw [if_neg hkn2] at hok
        injection hok with hok2
        have hknd : ri.rtype = RType.knight → ri.rmax = 1 := by
          intro h
          by_contra hcon
          exact hkn2 ⟨h, hcon⟩
        exact bfs_case m e ri hdw hdh hmin hrt hknd l hok2

/-- A 1×1 entity at `(2, 2)` on an empty 3×3 board. -/
def entB4 : GameObject :=
  { uid := 3, owner_id := 1, x := 2, y := 2, width := 1, height := 1,
    vertical := false, hp := 5, skills := [], buffs := [] }

/-- Manhattan range `{Min 1, Max 1}`. -/
def riB4 : RangeInfo := ⟨RType.plus, 1, 1⟩

theorem calc_range_empty_positions_spec_witness :
    ∃ l, calc_range_empty_positions (mkGameMap 3 3) entB4 riB4 false = .ok l ∧
      ((∀ c ∈ l, (mkGameMap 3 3).getUid c.1 c.2 = none ∧
        ∃ n : Nat, (n : Int) ≤ riB4.rmax ∧
          ReachIn (mkGameMap 3 3) (stepSet riB4.rtype) (entB4.x, entB4.y) c n) ∧
      (∃ li, calc_range_empty_positions (mkGameMap 3 3) entB4 riB4 true = .ok li ∧
        ∀ c ∈ l, c ∈ li)) :=
  ⟨_, rfl, calc_range_empty_positions_spec (mkGameMap 3 3) entB4 riB4 _ rfl⟩

end TOC
